import Mathlib

set_option maxRecDepth 8000

namespace CkbTextify

/-- The closed set of token type variants of `ckb_textify.core.types.TokenType`,
as listed in the data model and used by every module under `src/`. -/
inductive TokenType where
  | WORD | NUMBER | SYMBOL | URL | EMAIL | PHONE | DATE | TIME
  | TECHNICAL | SUBSCRIPT | SUPERSCRIPT | UNKNOWN
  deriving DecidableEq, Repr

/-- The token record of `ckb_textify.core.types.Token`: current text, immutable
original text, type, semantic tags, verbatim trailing whitespace, and the
flag marking that the text has been semantically rewritten. -/
structure Tok where
  text : String
  original_text : String
  type : TokenType
  tags : List String := []
  whitespace_after : String := ""
  is_converted : Bool := false
  deriving DecidableEq, Repr

/-- Whitespace characters as the tokenizer and the final cleanup treat them. -/
def isWsChar (c : Char) : Bool :=
  c = ' ' || c = '\t' || c = '\r' || c = '\n'

/-- The whitespace set stripped by Python `str.strip()` restricted to ASCII. -/
def isStripWs (c : Char) : Bool :=
  c = ' ' || c = '\t' || c = '\n' || c = '\r' || c = '\x0b' || c = '\x0c'

/-- ASCII lower-casing of a character, modelling Python `str.lower` on the
ASCII letters that the modules compare (map keys are ASCII or Kurdish). -/
def asciiLowerChar (c : Char) : Char :=
  if 'A' ≤ c ∧ c ≤ 'Z' then Char.ofNat (c.toNat + 32) else c

/-- ASCII upper-casing of a character, modelling Python `str.upper` likewise. -/
def asciiUpperChar (c : Char) : Char :=
  if 'a' ≤ c ∧ c ≤ 'z' then Char.ofNat (c.toNat - 32) else c

def asciiLower (s : String) : String := String.mk (s.data.map asciiLowerChar)

def asciiUpper (s : String) : String := String.mk (s.data.map asciiUpperChar)

/-- Digit-string value: folds ASCII decimal digits into a natural number. -/
def digitsToNat (cs : List Char) : Nat :=
  cs.foldl (fun acc c => acc * 10 + (c.toNat - '0'.toNat)) 0

/-- Python `int(s)` on the strings the date/time module feeds it: optional
surrounding spaces, an optional single sign, then at least one ASCII digit.
Failure (`ValueError`) is `none`. -/
def pyInt? (s : String) : Option Int :=
  let t := (s.data.dropWhile (· = ' ')).reverse.dropWhile (· = ' ') |>.reverse
  match t with
  | '+' :: ds => if ds ≠ [] ∧ ds.all Char.isDigit then some (digitsToNat ds) else none
  | '-' :: ds => if ds ≠ [] ∧ ds.all Char.isDigit then some (-(digitsToNat ds : Int)) else none
  | ds => if ds ≠ [] ∧ ds.all Char.isDigit then some (digitsToNat ds) else none

/-- Python `int(s)` specialised to the nonnegative case (digit-only strings). -/
def pyNat? (s : String) : Option Nat :=
  match pyInt? s with
  | some v => if 0 ≤ v then some v.toNat else none
  | none => none

/-- Modelled from the spec: `utils/numbers.py` (`int_to_kurdish`) is not under
`src/`; the cardinal words below follow spec §4.3 (recursive base-1000 grouping
through a fixed scale-word table) and the unit tests (`"123"` →
`"سەد و بیست و سێ"`, `5` → `"پێنج"`, `2` → `"دوو"`, `14` → `"چواردە"`). -/
def onesK : List String :=
  ["سفر", "یەک", "دوو", "سێ", "چوار", "پێنج", "شەش", "حەوت", "هەشت", "نۆ", "دە",
   "یازدە", "دوازدە", "سێزدە", "چواردە", "پازدە", "شازدە", "حەڤدە", "هەژدە", "نۆزدە"]

def tensK : List String :=
  ["", "", "بیست", "سی", "چل", "پەنجا", "شەست", "حەفتا", "هەشتا", "نەوەد"]

def below100K (n : Nat) : String :=
  if n < 20 then onesK.getD n ""
  else
    let t := tensK.getD (n / 10) ""
    if n % 10 = 0 then t else t ++ " و " ++ onesK.getD (n % 10) ""

def below1000K (n : Nat) : String :=
  if n < 100 then below100K n
  else
    let h := if n / 100 = 1 then "سەد" else onesK.getD (n / 100) "" ++ " سەد"
    if n % 100 = 0 then h else h ++ " و " ++ below100K (n % 100)

def scalesK : List String :=
  ["", "هەزار", "ملیۆن", "ملیار", "تریلیۆن", "کوادریلیۆن", "کوینتیلیۆن"]

/-- Little-endian base-1000 groups of a natural number (fuel-bounded). -/
def groupsOf1000 : Nat → Nat → List Nat
  | 0, _ => []
  | _, 0 => []
  | f + 1, n => n % 1000 :: groupsOf1000 f (n / 1000)

def natToKurdish (n : Nat) : String :=
  if n = 0 then "سفر"
  else
    let gs := groupsOf1000 (n + 1) n
    let parts := (gs.enum.filterMap fun p =>
      if p.2 = 0 then none
      else if p.1 = 0 then some (below1000K p.2)
      else if p.2 = 1 then some (scalesK.getD p.1 "")
      else some (below1000K p.2 ++ " " ++ scalesK.getD p.1 "")).reverse
    String.intercalate " و " parts

/-- Signed numeral rendering: a negative value is prefixed with the minus word,
matching the spec §4.3 sign handling ( `"-5"` → `"سالب پێنج"` ). -/
def int_to_kurdish (n : Int) : String :=
  if n < 0 then "سالب " ++ natToKurdish n.natAbs else natToKurdish n.toNat

/-! ## Final whitespace cleanup (`core/pipeline.py`, `Pipeline.normalize`, steps A-D)

The four regex substitutions and the final strip are embedded as character-list
functions: `re.sub` of a character-class-plus pattern collapses each maximal run
(greedy, non-overlapping, left to right), and `re.sub` of a two-character literal
pattern replaces occurrences scanning left to right without rescanning. -/

/-- One pass of `re.sub(cls+ , out, s)`: a maximal run of characters matching
`p` becomes the single character `out`; the `inRun` flag tracks being inside a
run already rewritten. -/
def collapseAux (p : Char → Bool) (out : Char) : Bool → List Char → List Char
  | _, [] => []
  | inRun, c :: rest =>
    if p c then
      if inRun then collapseAux p out true rest
      else out :: collapseAux p out true rest
    else c :: collapseAux p out false rest

/-- `re.sub(r'[ \t]+', ' ', s)` / `re.sub(r'[\r\n]+', '\n', s)` (step A / B). -/
def collapseRuns (p : Char → Bool) (out : Char) (cs : List Char) : List Char :=
  collapseAux p out false cs

def isSpTab (c : Char) : Bool := c = ' ' || c = '\t'

def isNlCr (c : Char) : Bool := c = '\r' || c = '\n'

/-- `re.sub(r' \n', '\n', s)` (step C, first substitution): left-to-right
non-overlapping replacement of the two-character pattern. -/
def dropSpaceBeforeNl : List Char → List Char
  | [] => []
  | [c] => [c]
  | c :: d :: rest =>
    if c = ' ' ∧ d = '\n' then '\n' :: dropSpaceBeforeNl rest
    else c :: dropSpaceBeforeNl (d :: rest)

/-- `re.sub(r'\n ', '\n', s)` (step C, second substitution). -/
def dropSpaceAfterNl : List Char → List Char
  | [] => []
  | [c] => [c]
  | c :: d :: rest =>
    if c = '\n' ∧ d = ' ' then '\n' :: dropSpaceAfterNl rest
    else c :: dropSpaceAfterNl (d :: rest)

/-- Python `str.strip()` (step D), over the ASCII whitespace set. -/
def pyStrip (cs : List Char) : List Char :=
  ((cs.dropWhile isStripWs).reverse.dropWhile isStripWs).reverse

/-- Steps A-D of `Pipeline.normalize`: the final cleanup applied to the
detokenized text. -/
def finalCleanup (cs : List Char) : List Char :=
  pyStrip (dropSpaceAfterNl (dropSpaceBeforeNl
    (collapseRuns isNlCr '\n' (collapseRuns isSpTab ' ' cs))))

/-- Adjacent occurrence test: `hasPair a b cs` holds when `a` is immediately
followed by `b` somewhere in `cs`. -/
def hasPair (a b : Char) : List Char → Bool
  | x :: y :: rest => (x = a && y = b) || hasPair a b (y :: rest)
  | _ => false

/-- The whitespace-canonical shape claimed for `Pipeline.normalize` output:
no tab, no carriage return, no two consecutive spaces, no two consecutive
line breaks, no space adjacent to a line break, no leading or trailing
whitespace. -/
def wsCanonical (cs : List Char) : Bool :=
  !cs.any (· = '\t') && !cs.any (· = '\r') &&
  !hasPair ' ' ' ' cs && !hasPair '\n' '\n' cs &&
  !hasPair ' ' '\n' cs && !hasPair '\n' ' ' cs &&
  !isStripWs (cs.headD 'x') && !isStripWs (cs.getLastD 'x')

/-- The canonical shape the code actually guarantees: everything above except
the absence of consecutive line breaks. -/
def wsCanonicalWeak (cs : List Char) : Bool :=
  !cs.any (· = '\t') && !cs.any (· = '\r') &&
  !hasPair ' ' ' ' cs &&
  !hasPair ' ' '\n' cs && !hasPair '\n' ' ' cs &&
  !isStripWs (cs.headD 'x') && !isStripWs (cs.getLastD 'x')

/-! ## Tokenizer

Modelled from the spec: `core/tokenizer.py` is not under `src/` (only its tests
and callers are). Spec §4.1: rigid patterns first — DATE
(digit/separator/digit/separator/digit), TIME (digit:digit), numeric literals
(integer, decimal, scientific), TECHNICAL (`#tag`, `@mention`) — then fallback
WORD (maximal script-agnostic letter run) and SYMBOL (single other character);
each token records the verbatim run of whitespace following it
(`whitespace_after`). The URL/EMAIL/PHONE recognizers of §4.1 are omitted from
the model: no claim exercises them and they do not affect whitespace
attribution. Leading input whitespace has no token to attach to (the data model
only carries `whitespace_after`), and the repository's own round-trip test
states that the round trip ignores leading whitespace, so the model discards
it. -/

def digRun (cs : List Char) : Nat := (cs.takeWhile Char.isDigit).length

def isDateSep (c : Char) : Bool := c = '/' || c = '-' || c = '.'

/-- Tail of a DATE after the first separator: digits, separator, digits. -/
def matchDateTail (r1 : List Char) : Option Nat :=
  if digRun r1 = 0 then none
  else
    match r1.drop (digRun r1) with
    | s2 :: r2 =>
      if isDateSep s2 then
        if digRun r2 = 0 then none else some (digRun r1 + 1 + digRun r2)
      else none
    | [] => none

/-- DATE rigid pattern: digits, separator, digits, separator, digits. -/
def matchDATE (cs : List Char) : Option Nat :=
  if digRun cs = 0 then none
  else
    match cs.drop (digRun cs) with
    | s1 :: r1 =>
      if isDateSep s1 then
        match matchDateTail r1 with
        | some m => some (digRun cs + 1 + m)
        | none => none
      else none
    | [] => none

/-- TIME rigid pattern: digits, colon, digits. -/
def matchTIME (cs : List Char) : Option Nat :=
  if digRun cs = 0 then none
  else
    match cs.drop (digRun cs) with
    | ':' :: r1 => if digRun r1 = 0 then none else some (digRun cs + 1 + digRun r1)
    | _ => none

/-- Length of the optional decimal part of a numeric literal. -/
def numFracLen (cs : List Char) : Nat :=
  match cs with
  | '.' :: r1 => if digRun r1 = 0 then 0 else digRun r1 + 1
  | _ => 0

/-- Length of the optional exponent part of a numeric literal. -/
def numExpLen (cs : List Char) : Nat :=
  match cs with
  | 'e' :: '-' :: r2 => if digRun r2 = 0 then 0 else digRun r2 + 2
  | 'e' :: '+' :: r2 => if digRun r2 = 0 then 0 else digRun r2 + 2
  | 'e' :: r2 => if digRun r2 = 0 then 0 else digRun r2 + 1
  | 'E' :: '-' :: r2 => if digRun r2 = 0 then 0 else digRun r2 + 2
  | 'E' :: '+' :: r2 => if digRun r2 = 0 then 0 else digRun r2 + 2
  | 'E' :: r2 => if digRun r2 = 0 then 0 else digRun r2 + 1
  | _ => 0

/-- Numeric literal: digits, optional decimal part, optional exponent part. -/
def matchNUMBER (cs : List Char) : Option Nat :=
  if digRun cs = 0 then none
  else
    some (digRun cs + numFracLen (cs.drop (digRun cs)) +
      numExpLen ((cs.drop (digRun cs)).drop (numFracLen (cs.drop (digRun cs)))))

/-- TECHNICAL rigid pattern: `#` or `@` followed by an alphanumeric run. -/
def matchTECH (cs : List Char) : Option Nat :=
  match cs with
  | '#' :: r1 =>
    if (r1.takeWhile fun c => c.isAlpha || c.isDigit).length = 0 then none
    else some ((r1.takeWhile fun c => c.isAlpha || c.isDigit).length + 1)
  | '@' :: r1 =>
    if (r1.takeWhile fun c => c.isAlpha || c.isDigit).length = 0 then none
    else some ((r1.takeWhile fun c => c.isAlpha || c.isDigit).length + 1)
  | _ => none

/-- Script-agnostic letter: ASCII letters plus every non-ASCII character
(covers Kurdish/Arabic script; whitespace is ASCII so never matches). -/
def isWordChar (c : Char) : Bool := c.isAlpha || 0x7F < c.toNat

/-- One lexing step at the head of the input: matched length and token type,
rigid patterns first, fallback WORD run, else a single SYMBOL character. -/
def lexOne (cs : List Char) : Nat × TokenType :=
  match matchDATE cs with
  | some n => (n, TokenType.DATE)
  | none =>
    match matchTIME cs with
    | some n => (n, TokenType.TIME)
    | none =>
      match matchNUMBER cs with
      | some n => (n, TokenType.NUMBER)
      | none =>
        match matchTECH cs with
        | some n => (n, TokenType.TECHNICAL)
        | none =>
          let w := (cs.takeWhile isWordChar).length
          if w = 0 then (1, TokenType.SYMBOL) else (w, TokenType.WORD)

/-- The tokenizer loop: slice the matched prefix as the token text, then
attach the following whitespace run verbatim as `whitespace_after`. -/
def tokenizeAux : Nat → List Char → List Tok
  | 0, _ => []
  | _, [] => []
  | f + 1, c :: cs =>
    let r := lexOne (c :: cs)
    let text := (c :: cs).take r.1
    let rest := (c :: cs).drop r.1
    let ws := rest.takeWhile isWsChar
    let rest2 := rest.dropWhile isWsChar
    { text := String.mk text, original_text := String.mk text, type := r.2,
      whitespace_after := String.mk ws } :: tokenizeAux f rest2

def tokenize (cs : List Char) : List Tok :=
  tokenizeAux (cs.dropWhile isWsChar).length (cs.dropWhile isWsChar)

/-- Modelled from the spec: the detokenizer reassembles `text +
whitespace_after` over the sequence after dead-token removal (empty-text
tokens are dropped and contribute nothing). -/
def detokenize (ts : List Tok) : List Char :=
  ts.foldr
    (fun t acc =>
      (if t.text = "" then [] else t.text.data ++ t.whitespace_after.data) ++ acc) []

/-! ## Date/time module (`modules/date_time.py`)

`_convert_date`, `_get_time_period` and `_convert_time` embedded directly; the
`try/except` bodies become `Option`-valued cores (`none` models a caught
exception) and the public functions fall back to the original text. -/

def KURDISH_MONTHS : List (Int × String) :=
  [(1, "کانونی دووەم"), (2, "شوبات"), (3, "ئازار"), (4, "نیسان"),
   (5, "ئایار"), (6, "حوزەیران"), (7, "تەمموز"), (8, "ئاب"),
   (9, "ئەیلوول"), (10, "تشرینی یەکەم"), (11, "تشرینی دووەم"), (12, "کانونی یەکەم")]

/-- `KURDISH_MONTHS.get(month, f"مانگی {...}")`. -/
def monthName (m : Int) : String :=
  match KURDISH_MONTHS.find? (fun p => p.1 = m) with
  | some p => p.2
  | none => "مانگی " ++ int_to_kurdish m

/-- `re.split` on a single-character class: pieces between separator
occurrences, empty pieces included (as in Python). -/
def splitChars (p : Char → Bool) : List Char → List (List Char)
  | [] => [[]]
  | c :: rest =>
    if p c then [] :: splitChars p rest
    else (splitChars p rest).modifyHead (c :: ·)

/-- `re.split(r'[/\-.]', text)`. -/
def dateParts (text : String) : List String :=
  (splitChars isDateSep text.data).map String.mk

def renderDate (d m y : Int) : String :=
  int_to_kurdish d ++ "ی " ++ monthName m ++ "ی ساڵی " ++ int_to_kurdish y

/-- The `elif len(p2) == 4` arm of the date heuristic (with the final
`else: return text`). -/
def dateElif (text p0 p1 p2 : String) : Option String :=
  if p2.length = 4 then
    match pyInt? p2, pyInt? p0, pyInt? p1 with
    | some y, some v1, some v2 =>
      if v1 > 12 ∧ v2 ≤ 12 then some (renderDate v1 v2 y)
      else if v2 > 12 ∧ v1 ≤ 12 then some (renderDate v2 v1 y)
      else some (renderDate v1 v2 y)
    | _, _, _ => none
  else some text

/-- The `try` body of `_convert_date`; `none` is a raised-and-caught
exception (a failed `int(...)`). -/
def dateCore (text : String) : Option String :=
  match dateParts text with
  | [p0, p1, p2] =>
    if p0.length = 4 then
      match pyInt? p1 with
      | none => none
      | some v1 =>
        if 1 ≤ v1 ∧ v1 ≤ 12 then
          match pyInt? p0, pyInt? p2 with
          | some y, some d => some (renderDate d v1 y)
          | _, _ => none
        else dateElif text p0 p1 p2
    else dateElif text p0 p1 p2
  | _ => some text

def convert_date (text : String) : String := (dateCore text).getD text

/-- `_get_time_period`: the eight named day-period buckets over the 24-hour
clock. -/
def getTimePeriod (h : Nat) : String :=
  if h < 1 then "نیوەشەو"
  else if h < 4 then "شەو"
  else if h < 6 then "بەرەبەیان"
  else if h < 10 then "بەیانی"
  else if h < 12 then "پێش نیوەڕۆ"
  else if h < 14 then "نیوەڕۆ"
  else if h < 18 then "دوای نیوەڕۆ"
  else if h < 21 then "ئێوارە"
  else "شەو"

/-- `re.sub(r"[^\d:]", "", text)`: keep digits and colons. -/
def cleanTimeChars (text : String) : List Char :=
  text.data.filter (fun c => c.isDigit || c = ':')

def timeParts (text : String) : List String :=
  (splitChars (· = ':') (cleanTimeChars text)).map String.mk

/-- Parse every piece or fail (`list(map(int, ...))` raising on any piece). -/
def allParse : List String → Option (List Nat)
  | [] => some []
  | s :: rest =>
    match pyNat? s, allParse rest with
    | some v, some vs => some (v :: vs)
    | _, _ => none

/-- `list(map(int, clean_time.split(":")))`, failing when any piece fails. -/
def parseTimeParts (text : String) : Option (List Nat) :=
  allParse (timeParts text)

/-- Raw hour and minute of a TIME text (`parts[0]`, `parts[1] if len > 1 else 0`). -/
def timeHM (text : String) : Option (Nat × Nat) :=
  match parseTimeParts text with
  | some (h :: rest) => some (h, rest.headD 0)
  | _ => none

def AM_SUFFIXES : List String :=
  ["AM", "A.M.", "پ.ن", "بەیانی", "پێش نیوەڕۆ", "پێشنیوەڕۆ"]

def PM_SUFFIXES : List String :=
  ["PM", "P.M.", "د.ن",
   "دوای نیوەڕۆ", "دوای نیوەرۆ", "دوا نیوەڕۆ",
   "پاش نیوەڕۆ", "پاش نیوەرۆ", "پاشنیوەڕۆ",
   "ئێوارە", "عەسر", "نیوەڕۆ"]

/-- Suffix cleaning of `_convert_time`: drop dots, strip, drop spaces, drop a
leading linking `ی`/`ي` when more than one character remains, drop tatweel. -/
def suffixClean (suffix : String) : List Char :=
  let s1 := suffix.data.filter (· ≠ '.')
  let s2 := (pyStrip s1).filter (· ≠ ' ')
  let s3 :=
    if 1 < s2.length ∧ (s2.headD ' ' = 'ی' ∨ s2.headD ' ' = 'ي') then s2.tail else s2
  s3.filter (· ≠ 'ـ')

/-- `s.replace(' ', '').upper()` applied to a suffix-table entry. -/
def compactUpper (s : String) : List Char :=
  (s.data.filter (· ≠ ' ')).map asciiUpperChar

def isPmSuffix (suffix : String) : Bool :=
  PM_SUFFIXES.any (fun s => compactUpper s = (suffixClean suffix).map asciiUpperChar)

def isAmSuffix (suffix : String) : Bool :=
  AM_SUFFIXES.any (fun s => compactUpper s = (suffixClean suffix).map asciiUpperChar)

/-- Python `needle in hay` substring test. -/
def containsSub (needle : List Char) : List Char → Bool
  | [] => needle.isEmpty
  | c :: rest => needle.isPrefixOf (c :: rest) || containsSub needle rest

def isShewSuffix (suffix : String) : Bool := containsSub "شەو".data suffix.data

/-- Special handling for the night marker: raw hour 12 or 1..4 means AM,
otherwise PM; without the marker the flags pass through. Result `(isPM, isAM)`. -/
def shewAdjust (hour : Nat) (pm am shew : Bool) : Bool × Bool :=
  if shew then
    if hour = 12 ∨ (1 ≤ hour ∧ hour ≤ 4) then (false, true) else (true, false)
  else (pm, am)

/-- The 24-hour value after the AM/PM adjustment and the final `%= 24`. -/
def hour24Of (hour : Nat) (pm am : Bool) : Nat :=
  (if pm then (if 1 ≤ hour ∧ hour < 12 then hour + 12 else hour)
   else if am then (if hour = 12 then 0 else hour)
   else hour) % 24

/-- `hour_24 % 12 or 12`. -/
def hour12Of (h24 : Nat) : Nat := if h24 % 12 = 0 then 12 else h24 % 12

/-- Rendering without a period word (no explicit AM/PM signal, ambiguous hour). -/
def renderTimePlain (hourText minText : String) (minute : Nat) : String :=
  if minute = 0 then hourText
  else if minute = 30 then hourText ++ " و نیو"
  else hourText ++ " و " ++ minText ++ " خولەک"

/-- Rendering with the day-period label. -/
def renderTimePeriod (hourText minText label : String) (minute : Nat) : String :=
  if minute = 0 then hourText ++ "ی " ++ label
  else if minute = 30 then hourText ++ " و نیوی " ++ label
  else hourText ++ " و " ++ minText ++ " خولەکی " ++ label

/-- The `try` body of `_convert_time`. -/
def timeCore (text suffix : String) : Option String :=
  match timeHM text with
  | none => none
  | some (h0, m0) =>
    let hour := h0 + m0 / 60
    let minute := m0 % 60
    let pm0 := isPmSuffix suffix
    let am0 := isAmSuffix suffix
    let shew := isShewSuffix suffix
    let pa := shewAdjust hour pm0 am0 shew
    let h24 := hour24Of hour pa.1 pa.2
    let hourText := int_to_kurdish (hour12Of h24)
    let minText := int_to_kurdish minute
    let hasExplicit := pa.1 || pa.2 || shew || decide (12 < hour) || decide (hour = 0)
    if hasExplicit then
      some (renderTimePeriod hourText minText (getTimePeriod h24) minute)
    else some (renderTimePlain hourText minText minute)

def convert_time (text suffix : String) : String := (timeCore text suffix).getD text

/-- The field-order heuristic exactly as the spec states it, for comparison
with the code: first field of 4 digits ⇒ year-month-day; else last field of 4
digits ⇒ it is the year and, of the remaining two fields, whichever value
exceeds 12 is the day; if neither exceeds 12, day before month. Result is
`(day, month, year)`. -/
def dateSpecRead (text : String) : Option (Int × Int × Int) :=
  match dateParts text with
  | [p0, p1, p2] =>
    match pyInt? p0, pyInt? p1, pyInt? p2 with
    | some v0, some v1, some v2 =>
      if p0.length = 4 then some (v2, v1, v0)
      else if p2.length = 4 then
        if 12 < v0 ∧ v1 ≤ 12 then some (v0, v1, v2)
        else if 12 < v1 ∧ v0 ≤ 12 then some (v1, v0, v2)
        else some (v0, v1, v2)
      else none
    | _, _, _ => none
  | _ => none

/-! ## Math module (`modules/math.py`)

`MathNormalizer.process` is a while-loop over the token list with in-place
mutation and a manually advanced index; it is embedded as a step function
`mathStep` (one loop-body iteration, returning the updated list and the next
index) driven by `mathLoop`. The resource maps `GREEK_NAMES_MAP`/`LETTER_MAP`
(`resources/transliteration_maps.py`, not under `src/`) are modelled as small
concrete tables; only membership in them matters to the claims. -/

def MATH_SYMBOL_KEYS : List String :=
  ["+", "*", "×", "/", "÷", "±", "√", "-", "−", "=", "^", "%", "≈"]

def mathSymbolWord (s : String) : String :=
  if s = "+" then "کۆ"
  else if s = "*" ∨ s = "×" then "کەڕەتی"
  else if s = "/" ∨ s = "÷" then "دابەش"
  else if s = "±" then "کەم کۆ"
  else if s = "√" then "ڕەگی دووجای"
  else if s = "-" ∨ s = "−" then "کەم"
  else if s = "=" then "یەکسانە بە"
  else if s = "^" then "توان"
  else if s = "%" then "لە سەدا"
  else if s = "≈" then "نزیکەی"
  else s

def MATH_FUNCTIONS : List (String × String) :=
  [("ln", "لۆگاریتمی سروشتی"), ("log", "لۆگاریتمی"), ("sin", "ساینی"),
   ("cos", "کۆساینی"), ("tan", "تانجێنتی"), ("lim", "لیمێتی"),
   ("mod", "مۆد"), ("exp", "ئێکسپۆنێنشیاڵ"), ("μ", "میو"), ("π", "پای")]

def STRICT_UNITS : List String :=
  ["m", "g", "l", "s", "h", "kg", "km", "cm", "mm", "ml", "mg",
   "gb", "mb", "kb", "tb", "ft", "yd", "mi", "in", "oz", "lb",
   "v", "w", "j", "pa", "n", "wh", "kwh", "kw", "mw", "hp",
   "mv", "ma", "kn", "psi", "kpa", "cal", "kcal", "kj", "gal", "mph", "ms"]

def MATH_BRACKETS : List String := ["(", ")", "[", "]"]

/-- Modelled: `resources/transliteration_maps.py` is not under `src/`. -/
def GREEK_NAMES_MAP : List (String × String) :=
  [("α", "ئەلفا"), ("β", "بێتا"), ("γ", "گاما"), ("δ", "دێلتا"),
   ("θ", "سێتا"), ("λ", "لامدا"), ("Σ", "سیگما"), ("Ω", "ئۆمێگا")]

/-- Modelled: `resources/transliteration_maps.py` is not under `src/`; the
letter names follow the unit tests (`A1` → `ئەی یەک`, `user` → `یو…`). -/
def LETTER_MAP : List (Char × String) :=
  [('a', "ئەی"), ('b', "بی"), ('c', "سی"), ('d', "دی"), ('e', "ئی"),
   ('f', "ئێف"), ('g', "جی"), ('h', "ئێچ"), ('i', "ئای"), ('j', "جەی"),
   ('k', "کەی"), ('l', "ئێڵ"), ('m', "ئێم"), ('n', "ئێن"), ('o', "ئۆ"),
   ('p', "پی"), ('q', "کیو"), ('r', "ئاڕ"), ('s', "ئێس"), ('t', "تی"),
   ('u', "یو"), ('v', "ڤی"), ('w', "دەبڵیو"), ('x', "ئێکس"), ('y', "وای"),
   ('z', "زێد")]

def FRACTION_VALUES : List (String × Int × Int) :=
  [("½", 1, 2), ("¼", 1, 4), ("¾", 3, 4), ("⅓", 1, 3), ("⅔", 2, 3),
   ("⅕", 1, 5), ("⅖", 2, 5), ("⅗", 3, 5), ("⅘", 4, 5), ("⅙", 1, 6),
   ("⅚", 5, 6), ("⅛", 1, 8), ("⅜", 3, 8), ("⅝", 5, 8), ("⅞", 7, 8),
   ("⅐", 1, 7), ("⅑", 1, 9), ("⅒", 1, 10), ("↉", 0, 3)]

/-- `str.maketrans("₀₁₂₃₄₅₆₇₈₉", "0123456789")` as a per-character map. -/
def subDigitVal (c : Char) : Option Char :=
  if 0x2080 ≤ c.toNat ∧ c.toNat ≤ 0x2089 then
    some (Char.ofNat ('0'.toNat + c.toNat - 0x2080))
  else none

/-- `str.maketrans("⁰¹²³⁴⁵⁶⁷⁸⁹", "0123456789")` as a per-character map. -/
def supDigitVal (c : Char) : Option Char :=
  if c = '⁰' then some '0'
  else if c = '¹' then some '1'
  else if c = '²' then some '2'
  else if c = '³' then some '3'
  else if 0x2074 ≤ c.toNat ∧ c.toNat ≤ 0x2079 then
    some (Char.ofNat ('0'.toNat + c.toNat - 0x2070))
  else none

def translateSub (s : String) : String :=
  String.mk (s.data.map fun c => (subDigitVal c).getD c)

def translateSup (s : String) : String :=
  String.mk (s.data.map fun c => (supDigitVal c).getD c)

/-- `str.isdigit` restricted to ASCII digits (all inputs here are translated
subscript/superscript runs, which land in ASCII). -/
def pyIsDigitStr (s : String) : Bool := !s.data.isEmpty && s.data.all Char.isDigit

/-- Python set `.add`: append the tag when absent. -/
def tagAdd (tags : List String) (tag : String) : List String :=
  if tags.contains tag then tags else tags ++ [tag]

/-- `re.match(r"^[₀-₉]+$", text)` guarded by the token-type test. -/
def isSubTok (t : Tok) : Bool :=
  t.type = TokenType.SUBSCRIPT ||
  ((t.type = TokenType.SYMBOL || t.type = TokenType.UNKNOWN) &&
    !t.text.data.isEmpty && t.text.data.all fun c => (subDigitVal c).isSome)

/-- `re.match(r"^[⁰¹²³⁴-⁹]+$", text)` guarded by
the token-type test. -/
def isSupTok (t : Tok) : Bool :=
  t.type = TokenType.SUPERSCRIPT ||
  ((t.type = TokenType.SYMBOL || t.type = TokenType.UNKNOWN) &&
    !t.text.data.isEmpty && t.text.data.all fun c => (supDigitVal c).isSome)

/-- `^[\d,]+(\.\d+)?$` over `original_text`. -/
def numFormat (cs : List Char) : Bool :=
  let pre := cs.takeWhile fun c => c.isDigit || c = ','
  !pre.isEmpty &&
    (match cs.drop pre.length with
     | [] => true
     | '.' :: ds => !ds.isEmpty && ds.all Char.isDigit
     | _ => false)

/-- `MathNormalizer._is_numeric_token`. -/
def isNumericToken : Option Tok → Bool
  | none => false
  | some t =>
    t.type = TokenType.NUMBER ||
    (t.original_text.data.any Char.isDigit && numFormat t.original_text.data)

/-- `MathNormalizer._format_fraction`. -/
def formatFraction (num denom : Int) (isMixed : Bool) : String :=
  if num = 1 ∧ denom = 2 then if isMixed then "و نیو" else "نیوە"
  else if num = 1 ∧ denom = 4 then if isMixed then "و چارەک" else "چارەک"
  else
    let numText := int_to_kurdish num
    let denomText := int_to_kurdish denom
    if isMixed then "ژمارەی تەواو و " ++ numText ++ " لەسەر " ++ denomText
    else numText ++ " دابەش " ++ denomText

def greekHas (s : String) : Bool := GREEK_NAMES_MAP.any fun p => p.1 = s

/-- `MathNormalizer._is_math_term`. -/
def isMathTermStr (text : String) : Bool :=
  MATH_FUNCTIONS.any (fun p => p.1 = asciiLower text) || greekHas text ||
    MATH_FUNCTIONS.any fun p => p.2 = text

/-- Python `str.isalpha` for the scripts exercised here: ASCII letters plus
the Arabic blocks (Kurdish letters). -/
def pyIsAlphaChar (c : Char) : Bool :=
  c.isAlpha || (0x600 ≤ c.toNat ∧ c.toNat ≤ 0x6FF) ||
    (0x750 ≤ c.toNat ∧ c.toNat ≤ 0x77F)

/-- The `is_mathy` helper inside `_check_math_context`. -/
def isMathy : Option Tok → Bool
  | none => false
  | some t =>
    t.type = TokenType.NUMBER || t.tags.contains "MATH_TERM" ||
    isMathTermStr t.text ||
    t.type = TokenType.SUBSCRIPT || t.type = TokenType.SUPERSCRIPT ||
    (t.type = TokenType.WORD && t.text.length = 1 && t.text.data.all pyIsAlphaChar) ||
    greekHas t.text

def UNARY_PRECEDERS : List String := ["(", "[", "\x7b", "=", ","]

/-- `^[a-zA-Z]{1,2}$`. -/
def isVarShape (s : String) : Bool :=
  (s.length = 1 || s.length = 2) &&
    s.data.all fun c => ('a' ≤ c ∧ c ≤ 'z') ∨ ('A' ≤ c ∧ c ≤ 'Z')

/-- `prev is None or prev.text in ["(", "[", "{", "=", ","] or prev.text in
MATH_SYMBOLS` (the `is_start_or_unary` of `_check_math_context`, with no type
test on `prev`). -/
def isStartOrUnary (prev : Option Tok) : Bool :=
  match prev with
  | none => true
  | some p => p.text ∈ UNARY_PRECEDERS || p.text ∈ MATH_SYMBOL_KEYS

/-- `MathNormalizer._check_math_context`. -/
def checkMathContext (cur : Tok) (prev next : Option Tok) : Bool :=
  if cur.text ∈ MATH_BRACKETS ∧
      ((isStartOrUnary prev || isMathy prev ||
          (match prev with | some p => p.text = ")" ∨ p.text = "]" | none => false)) ||
        (match next with
         | some n => isMathy next || n.text ∈ ["(", "[", "sin", "cos"]
         | none => false)) then
    true
  else if cur.text ∈ MATH_SYMBOL_KEYS ∧
      ((isStartOrUnary prev || isMathy prev ||
          (match prev with | some p => p.text = ")" | none => false)) &&
        (match next with
         | some n => isMathy next || n.text = "("
         | none => false)) then
    true
  else if cur.type = TokenType.WORD ∧ isVarShape cur.text then
    if asciiLower cur.text ∈ STRICT_UNITS then false
    else
      (match prev with | some p => p.type = TokenType.NUMBER | none => false) ||
      (match next with | some n => n.type = TokenType.NUMBER | none => false) ||
      (match prev with | some p => p.text ∈ MATH_SYMBOL_KEYS | none => false) ||
      (match next with | some n => n.text ∈ MATH_SYMBOL_KEYS | none => false) ||
      (match prev with | some p => p.text ∈ MATH_BRACKETS | none => false) ||
      (match next with | some n => n.text ∈ MATH_BRACKETS | none => false)
  else false

/-- The `is_active_math` helper of the range-vs-minus check. -/
def isActiveMath : Option Tok → Bool
  | none => false
  | some t =>
    t.text ∈ MATH_SYMBOL_KEYS || t.text ∈ MATH_BRACKETS ||
    isMathTermStr t.text || t.tags.contains "MATH_TERM"

def getPrev (ts : List Tok) (i : Nat) : Option Tok :=
  if 0 < i then ts[i - 1]? else none

def getNext (ts : List Tok) (i : Nat) : Option Tok :=
  if i + 1 < ts.length then ts[i + 1]? else none

def spellLetters (s : String) : String :=
  String.intercalate " "
    ((asciiLower s).data.map fun c =>
      match LETTER_MAP.find? (fun p => p.1 = c) with
      | some p => p.2
      | none => String.mk [c])

/-- Unicode-fraction branch of the loop body. -/
def stepFracGlyph (ts : List Tok) (i : Nat) (t : Tok) (num denom : Int) :
    List Tok × Nat :=
  let prev := getPrev ts i
  let isMixed := isNumericToken prev
  let ts1 := ts.set i
    { t with text := formatFraction num denom isMixed, type := TokenType.WORD,
             whitespace_after := " " }
  let ts2 :=
    match prev with
    | some p =>
      if p.whitespace_after = "" then
        ts1.set (i - 1) { p with whitespace_after := " " }
      else ts1
    | none => ts1
  (ts2, i + 1)

/-- Subscript branch of the loop body (no unit-context suppression here). -/
def stepSubscript (ts : List Tok) (i : Nat) (t : Tok) : List Tok :=
  let ascii := translateSub t.text
  if pyIsDigitStr ascii then
    let ts1 := ts.set i
      { t with text := "بنچینە " ++ int_to_kurdish (digitsToNat ascii.data),
               type := TokenType.WORD, tags := tagAdd t.tags "MATH_TERM",
               whitespace_after := " " }
    if 0 < i then
      match ts1[i - 1]? with
      | some p =>
        if p.whitespace_after = "" then
          ts1.set (i - 1) { p with whitespace_after := " " }
        else ts1
      | none => ts1
    else ts1
  else ts

/-- The unit-context test of the superscript branch. -/
def isUnitCtx (prev : Option Tok) : Bool :=
  match prev with
  | none => false
  | some p =>
    p.tags.contains "IS_UNIT" || p.tags.contains "UNIT_PROCESSED" ||
    (p.type = TokenType.WORD &&
      ("مەتر".data.isSuffixOf p.text.data || "گرام".data.isSuffixOf p.text.data ||
       "لیتر".data.isSuffixOf p.text.data || "چرکە".data.isSuffixOf p.text.data))

/-- Superscript branch of the loop body (suppressed in unit context). -/
def stepSuperscript (ts : List Tok) (i : Nat) (t : Tok) : List Tok :=
  if isUnitCtx (getPrev ts i) then ts
  else
    let ascii := translateSup t.text
    if pyIsDigitStr ascii then
      let ts1 := ts.set i
        { t with text := "توان " ++ int_to_kurdish (digitsToNat ascii.data),
                 type := TokenType.WORD, tags := tagAdd t.tags "MATH_TERM",
                 whitespace_after := " " }
      if 0 < i then
        match ts1[i - 1]? with
        | some p =>
          if p.whitespace_after = "" then
            ts1.set (i - 1) { p with whitespace_after := " " }
          else ts1
        | none => ts1
      else ts1
    else ts

/-- Range-vs-minus branch: `some` when the bare dash is rewritten to the range
word, `none` when control falls through. -/
def mathRange? (ts : List Tok) (i : Nat) (t : Tok) (prev next : Option Tok) :
    Option (List Tok × Nat) :=
  if t.text = "-" ∨ t.text = "−" then
    let pp := if prev.isSome then getPrev ts (i - 1) else none
    let nn := if next.isSome then getNext ts (i + 1) else none
    if isNumericToken prev ∧ isNumericToken next ∧
        ¬(isActiveMath pp ∨ isActiveMath nn) then
      let ts1 := ts.set i
        { t with text := "بۆ", type := TokenType.WORD, whitespace_after := " " }
      let ts2 :=
        match prev with
        | some p => ts1.set (i - 1) { p with whitespace_after := " " }
        | none => ts1
      some (ts2, i + 1)
    else none
  else none

/-- Slash branch: unit-tagged neighbors make the slash skip (`some (ts, i+1)`);
two NUMBER neighbors with integer texts merge into a fraction (`some` with
`i+2`); otherwise control falls through (`none`). -/
def mathSlash? (ts : List Tok) (i : Nat) (t : Tok) (prev next : Option Tok) :
    Option (List Tok × Nat) :=
  if t.text = "/" ∨ t.text = "÷" then
    let unitSkip :=
      match prev, next with
      | some p, some n =>
        (p.tags.contains "IS_UNIT" || p.tags.contains "UNIT_PROCESSED") &&
        (n.tags.contains "IS_UNIT" || n.tags.contains "UNIT_PROCESSED")
      | _, _ => false
    if unitSkip then some (ts, i + 1)
    else
      match prev, next with
      | some p, some n =>
        if p.type = TokenType.NUMBER ∧ n.type = TokenType.NUMBER then
          let isMixed := isNumericToken (getPrev ts (i - 1))
          match pyInt? (String.mk (p.text.data.filter (· ≠ ','))),
              pyInt? (String.mk (n.text.data.filter (· ≠ ','))) with
          | some a, some b =>
            let ts1 := ts.set (i - 1)
              { p with text := formatFraction a b isMixed,
                       type := TokenType.WORD, tags := tagAdd p.tags "FRACTION",
                       whitespace_after := " " }
            let ts2 := ts1.set i { t with text := "", type := TokenType.UNKNOWN }
            let ts3 := ts2.set (i + 1) { n with text := "", type := TokenType.UNKNOWN }
            some (ts3, i + 2)
          | _, _ => none
        else none
      | _, _ => none
  else none

/-- The `is_unary` test of the operator rewrite: start of expression, opening
bracket, `=`, comma, or a preceding SYMBOL-typed operator. -/
def isUnaryPos (prev : Option Tok) : Bool :=
  match prev with
  | none => true
  | some p =>
    p.text ∈ UNARY_PRECEDERS ||
      (p.type = TokenType.SYMBOL && p.text ∈ MATH_SYMBOL_KEYS)

/-- The final unary/binary operator rewrite of the loop body. -/
def mathDefaultRewrite (ts : List Tok) (i : Nat) (t : Tok) (prev : Option Tok) :
    List Tok × Nat :=
  let isUnary := isUnaryPos prev
  let newText :=
    if isUnary then
      if t.text = "-" ∨ t.text = "−" then "سالب"
      else if t.text = "+" then "موجەب"
      else mathSymbolWord t.text
    else mathSymbolWord t.text
  let ts1 := ts.set i
    { t with text := newText, type := TokenType.WORD, whitespace_after := " " }
  let ts2 :=
    match prev with
    | some p => ts1.set (i - 1) { p with whitespace_after := " " }
    | none => ts1
  (ts2, i + 1)

/-- Operator handling once the math context is established. -/
def mathOpCore (ts : List Tok) (i : Nat) (t : Tok) (prev next : Option Tok) :
    List Tok × Nat :=
  if t.text ∈ MATH_BRACKETS then
    (ts.set i { t with type := TokenType.WORD, whitespace_after := " " }, i + 1)
  else
    match mathRange? ts i t prev next with
    | some r => r
    | none =>
      match mathSlash? ts i t prev next with
      | some r => r
      | none => mathDefaultRewrite ts i t prev

/-- The symbol/bracket block of the loop body, including the special `+`
checks that precede the context test. -/
def stepOperator (ts : List Tok) (i : Nat) (t : Tok) : List Tok × Nat :=
  if t.type = TokenType.SYMBOL ∧
      (t.text ∈ MATH_SYMBOL_KEYS ∨ t.text ∈ MATH_BRACKETS) then
    let prev := getPrev ts i
    let next := getNext ts i
    let ctx : List Tok × Nat :=
      if checkMathContext t prev next then mathOpCore ts i t prev next
      else (ts, i + 1)
    match prev, next with
    | some p, some n =>
      if t.text = "+" then
        if p.type = TokenType.WORD ∧ n.type = TokenType.WORD then
          if 1 < p.text.length ∧ ¬p.tags.contains "MATH_TERM" then
            let ts1 := ts.set i
              { t with text := "لەگەڵ", type := TokenType.WORD,
                       whitespace_after := " " }
            let ts2 :=
              if p.whitespace_after = "" then
                ts1.set (i - 1) { p with whitespace_after := " " }
              else ts1
            (ts2, i + 1)
          else ctx
        else if p.type = TokenType.WORD ∧ n.type = TokenType.NUMBER then
          if p.tags.contains "MATH_TERM" then ctx else (ts, i + 1)
        else ctx
      else ctx
    | _, _ => ctx
  else (ts, i + 1)

/-- The WORD block of the loop body: function names, Greek letters, algebraic
variables; on fall-through the operator block cannot apply (wrong type). -/
def stepWord (ts : List Tok) (i : Nat) (t : Tok) : List Tok × Nat :=
  let lower := asciiLower t.text
  match MATH_FUNCTIONS.find? (fun p => p.1 = lower) with
  | some f =>
    (ts.set i { t with text := f.2, tags := tagAdd t.tags "MATH_FUNCTION",
                       type := TokenType.WORD }, i + 1)
  | none =>
    match GREEK_NAMES_MAP.find? (fun p => p.1 = t.text) with
    | some g =>
      (ts.set i { t with text := g.2, tags := tagAdd t.tags "MATH_FUNCTION",
                         type := TokenType.WORD }, i + 1)
    | none =>
      if isVarShape t.text then
        if t.tags.contains "IS_UNIT" ∧ lower ∈ STRICT_UNITS then (ts, i + 1)
        else
          let prev := getPrev ts i
          let next := getNext ts i
          if checkMathContext t prev next then
            let ts1 := ts.set i
              { t with text := spellLetters t.text,
                       tags := tagAdd t.tags "MATH_TERM",
                       type := TokenType.WORD, whitespace_after := " " }
            let ts2 :=
              match prev with
              | some p =>
                if p.whitespace_after = "" then
                  ts1.set (i - 1) { p with whitespace_after := " " }
                else ts1
              | none => ts1
            (ts2, i + 1)
          else (ts, i + 1)
      else (ts, i + 1)

/-- One iteration of the `MathNormalizer.process` while-loop at index `i`. -/
def mathStep (ts : List Tok) (i : Nat) : List Tok × Nat :=
  match ts[i]? with
  | none => (ts, i + 1)
  | some t =>
    match FRACTION_VALUES.find? (fun p => p.1 = t.text) with
    | some f => stepFracGlyph ts i t f.2.1 f.2.2
    | none =>
      if isSubTok t then (stepSubscript ts i t, i + 1)
      else if isSupTok t then (stepSuperscript ts i t, i + 1)
      else if t.type = TokenType.WORD then stepWord ts i t
      else stepOperator ts i t

def mathLoop : Nat → List Tok → Nat → List Tok
  | 0, ts, _ => ts
  | f + 1, ts, i =>
    if i < ts.length then
      let r := mathStep ts i
      mathLoop f r.1 r.2
    else ts

/-- `MathNormalizer.process`: run the loop, then drop emptied tokens. -/
def mathProcess (ts : List Tok) : List Tok :=
  (mathLoop ts.length ts 0).filter fun t => t.text ≠ ""

/-! ## Spacing module (`modules/spacing.py`) -/

def SPACING_OPENERS : List String := ["(", "[", "\x7b", "”", "“", "\""]

/-- One iteration of `SpacingNormalizer.process` at index `i`. -/
def spStep (ts : List Tok) (i : Nat) : List Tok :=
  match ts[i]? with
  | none => ts
  | some t =>
    if t.is_converted then
      let ts1 :=
        if t.whitespace_after = "" then
          ts.set i { t with whitespace_after := " " }
        else ts
      if 0 < i then
        match ts1[i - 1]? with
        | some p =>
          if p.whitespace_after = "" then
            if p.text ∈ SPACING_OPENERS then ts1
            else ts1.set (i - 1) { p with whitespace_after := " " }
          else ts1
        | none => ts1
      else ts1
    else ts

def spLoop : Nat → List Tok → Nat → List Tok
  | 0, ts, _ => ts
  | f + 1, ts, i => if i < ts.length then spLoop f (spStep ts i) (i + 1) else ts

/-- `SpacingNormalizer.process`. -/
def spacingProcess (ts : List Tok) : List Tok := spLoop ts.length ts 0

/-! ## Technical module (`modules/technical.py`)

`TechnicalNormalizer.process` is embedded with an explicit current array
(Python mutates token objects in place while appending to `new_tokens`) and an
`Option` result: `none` models an uncaught exception escaping the module (a
raw `tokens[i ± 2]` list access outside the valid index range). `_spell_out`
comes from `WebNormalizer` (`modules/web.py`, not under `src/`) and is
modelled from the unit tests: character-by-character spelling through the
letter map, digits as numeral words. -/

def MATH_TERMS_T : List String := ["ln", "log", "sin", "cos", "tan", "lim", "mod", "exp"]

def CURRENCY_CODES : List String :=
  ["IQD", "USD", "EUR", "GBP", "JPY", "AED", "TRY", "IRR", "KWD", "SAR", "AUD", "CAD"]

def UNIT_CODES : List String :=
  ["mg", "ml", "gb", "mb", "kb", "tb", "km", "kg", "cm", "mm",
   "ft", "yd", "mi", "in", "oz", "lb", "gal", "mph", "ms",
   "kwh", "mw", "hp", "kpa", "psi", "kn", "cal", "kcal"]

/-- Regex `\w` (letters, digits, underscore; non-ASCII treated as letters). -/
def pyIsWordCh (c : Char) : Bool := c.isAlphanum || c = '_' || 0x7F < c.toNat

/-- A `\w` character that is a letter (`[^\W\d_]`). -/
def pyIsWordLetter (c : Char) : Bool := pyIsWordCh c && !c.isDigit && c ≠ '_'

/-- `ALPHANUMERIC_RE.fullmatch`: `(?=.*\d)(?=\w*[^\W\d_])[\w\-]+\b` — word/dash
characters containing a digit, ending in a word character, with a letter
somewhere in the leading word-character run. -/
def alphanumericRe (s : String) : Bool :=
  let cs := s.data
  !cs.isEmpty && cs.all (fun c => pyIsWordCh c || c = '-') &&
    cs.any Char.isDigit && pyIsWordCh (cs.getLastD ' ') &&
    (cs.takeWhile pyIsWordCh).any pyIsWordLetter

/-- `HEX_RE.fullmatch`: `^[a-fA-F0-9]+$`. -/
def hexRe (s : String) : Bool :=
  !s.data.isEmpty && s.data.all fun c =>
    c.isDigit || ('a' ≤ c ∧ c ≤ 'f') || ('A' ≤ c ∧ c ≤ 'F')

/-- `RANGE_RE.fullmatch`: `^\d+-\d+$`. -/
def rangeRe (s : String) : Bool :=
  let cs := s.data
  let d1 := cs.takeWhile Char.isDigit
  !d1.isEmpty &&
    (match cs.drop d1.length with
     | '-' :: rest => !rest.isEmpty && rest.all Char.isDigit
     | _ => false)

/-- `TechnicalNormalizer._is_potential_code`. -/
def isPotentialCode (t : Tok) : Bool :=
  if t.type = TokenType.WORD ∧
      (asciiLower t.text ∈ MATH_TERMS_T ∨ asciiUpper t.text ∈ CURRENCY_CODES ∨
        asciiLower t.text ∈ UNIT_CODES) then
    false
  else if t.type = TokenType.WORD then
    alphanumericRe t.text ||
      (t.text.data.any Char.isDigit && t.text.data.any pyIsAlphaChar) ||
      hexRe t.text
  else t.type = TokenType.NUMBER

/-- The first loop of `process`: a tight-bound `-` with potential-code
neighbors on both sides marks `{i-1, i, i+1}` as technical. -/
def tightAt (ts : List Tok) (i : Nat) : Bool :=
  match ts[i]? with
  | none => false
  | some t =>
    t.text = "-" &&
      (let prev := if 0 < i then ts[i - 1]? else none
       let next := if i + 1 < ts.length then ts[i + 1]? else none
       let hasSpaceBefore :=
         match prev with
         | some p => p.whitespace_after ≠ ""
         | none => false
       let hasSpaceAfter := t.whitespace_after ≠ ""
       !(hasSpaceBefore || hasSpaceAfter) && prev.isSome && next.isSome &&
         (match prev with | some p => isPotentialCode p | none => false) &&
         (match next with | some n => isPotentialCode n | none => false))

/-- Characteristic function of the `tech_indices` set. -/
def inTech (ts : List Tok) (i : Nat) : Bool :=
  tightAt ts i || tightAt ts (i + 1) || (0 < i && tightAt ts (i - 1))

/-- Modelled from the unit tests: `WebNormalizer._spell_out` (`web.py` absent)
spells each character — letters through the letter-name map, digits as
numeral words — joined by single spaces. -/
def spellChar (c : Char) : String :=
  match LETTER_MAP.find? (fun p => p.1 = asciiLowerChar c) with
  | some p => p.2
  | none => if c.isDigit then natToKurdish (c.toNat - '0'.toNat) else String.mk [c]

def spellOut (s : String) : String :=
  String.intercalate " " (s.data.map spellChar)

def isCodeRunCh (c : Char) : Bool :=
  c.isAlphanum || (0x80 ≤ c.toNat ∧ c.toNat ≤ 0xFFFF)

def isCodeSym (c : Char) : Bool :=
  c = '-' || c = '@' || c = '#' || c = '_' || c = '+' || c = '\\' || c = '/'

/-- `CODE_SPLITTER_RE.finditer`: alphanumeric runs and single split symbols,
other characters skipped. -/
def codeSplitAux : Nat → List Char → List (List Char)
  | 0, _ => []
  | _, [] => []
  | f + 1, c :: rest =>
    if isCodeRunCh c then
      ((c :: rest).takeWhile isCodeRunCh) :: codeSplitAux f (rest.dropWhile isCodeRunCh)
    else if isCodeSym c then
      [c] :: codeSplitAux f rest
    else codeSplitAux f rest

def codeSplit (cs : List Char) : List (List Char) := codeSplitAux cs.length cs

/-- The expansion of a WORD containing `-`/`_` into spelled sub-part tokens. -/
def codeExpansion (t : Tok) : List Tok :=
  let parts := codeSplit t.text.data
  parts.enum.map fun p =>
    let s := String.mk p.2
    if p.2.length = 1 ∧ isCodeSym (p.2.headD ' ') then
      { text := spellOut s, original_text := s, type := TokenType.WORD,
        whitespace_after := " " }
    else
      { text := spellOut s, original_text := s, type := TokenType.WORD,
        tags := ["IS_SPELLED_OUT"],
        whitespace_after := if p.1 = parts.length - 1 then t.whitespace_after else " " }

/-- Python list indexing `tokens[idx]` with an `Int` index: negative indices
wrap once, anything out of range is an `IndexError` (`none`). -/
def pyGet (arr : List Tok) (idx : Int) : Option Tok :=
  if 0 ≤ idx then (if idx < (arr.length : Int) then arr[idx.toNat]? else none)
  else if -(arr.length : Int) ≤ idx then arr[(arr.length - (-idx).toNat)]? else none

/-- The pure-numeric-range test inside the `tech_indices` branch; `none`
models the raw `tokens[i ± 2]` access raising `IndexError`. -/
def pureNumericRange? (arr : List Tok) (i : Nat) (t : Tok)
    (prev next : Option Tok) : Option Bool :=
  if t.text = "-" then
    some (match prev, next with
          | some p, some n => p.type = TokenType.NUMBER && n.type = TokenType.NUMBER
          | _, _ => false)
  else if t.type = TokenType.NUMBER then
    let r1 : Option Bool :=
      match next with
      | some n =>
        if n.text = "-" then (pyGet arr ((i : Int) + 2)).map (·.type = TokenType.NUMBER)
        else some false
      | none => some false
    let r2 : Option Bool :=
      match prev with
      | some p =>
        if p.text = "-" then (pyGet arr ((i : Int) - 2)).map (·.type = TokenType.NUMBER)
        else some false
      | none => some false
    match r1, r2 with
    | some a, some b => some (a || b)
    | _, _ => none
  else some false

/-- The second loop of `TechnicalNormalizer.process`; `arr` is the current
token array (mutated in place in Python), `out` the reversed `new_tokens`. -/
def techLoop (tech : Nat → Bool) : Nat → List Tok → Nat → List Tok →
    Option (List Tok)
  | 0, _, _, out => some out.reverse
  | f + 1, arr, i, out =>
    match arr[i]? with
    | none => some out.reverse
    | some t =>
      if t.type = TokenType.WORD ∧
          (asciiLower t.text ∈ MATH_TERMS_T ∨ asciiUpper t.text ∈ CURRENCY_CODES ∨
            asciiLower t.text ∈ UNIT_CODES) then
        techLoop tech f arr (i + 1) (t :: out)
      else if t.type = TokenType.WORD ∧ rangeRe t.text then
        techLoop tech f arr (i + 1) (t :: out)
      else if t.type = TokenType.TECHNICAL then
        if t.text.data.headD ' ' = '#' then
          let core := String.mk t.text.data.tail
          techLoop tech f arr (i + 1)
            ({ text := spellOut core, original_text := core, type := TokenType.WORD,
               tags := ["IS_SPELLED_OUT"], whitespace_after := t.whitespace_after } ::
             { text := "ھاشتاگ", original_text := "ھاشتاگ", type := TokenType.WORD,
               whitespace_after := " " } :: out)
        else if t.text.data.headD ' ' = '@' then
          let core := String.mk t.text.data.tail
          techLoop tech f arr (i + 1)
            ({ text := spellOut core, original_text := core, type := TokenType.WORD,
               tags := ["IS_SPELLED_OUT"], whitespace_after := t.whitespace_after } ::
             { text := "ئەت", original_text := "ئەت", type := TokenType.WORD,
               whitespace_after := " " } :: out)
        else
          let t' := { t with text := spellOut t.text, type := TokenType.WORD,
                             tags := tagAdd t.tags "IS_SPELLED_OUT" }
          techLoop tech f (arr.set i t') (i + 1) (t' :: out)
      else if tech i then
        let prev := if 0 < i then arr[i - 1]? else none
        let next := if i + 1 < arr.length then arr[i + 1]? else none
        match pureNumericRange? arr i t prev next with
        | none => none
        | some true => techLoop tech f arr (i + 1) (t :: out)
        | some false =>
          if t.text = "-" then
            let t' := { t with text := "داش", type := TokenType.WORD,
                               whitespace_after := " " }
            techLoop tech f (arr.set i t') (i + 1) (t' :: out)
          else
            let t' := { t with text := spellOut t.text, type := TokenType.WORD,
                               tags := tagAdd t.tags "IS_SPELLED_OUT" }
            techLoop tech f (arr.set i t') (i + 1) (t' :: out)
      else if t.type = TokenType.WORD ∧
          (t.text.data.contains '-' ∨ t.text.data.contains '_') then
        techLoop tech f arr (i + 1) ((codeExpansion t).reverse ++ out)
      else if t.type = TokenType.WORD ∧ alphanumericRe t.text then
        let t' := { t with text := spellOut t.text, type := TokenType.WORD,
                           tags := tagAdd t.tags "IS_SPELLED_OUT" }
        techLoop tech f (arr.set i t') (i + 1) (t' :: out)
      else techLoop tech f arr (i + 1) (t :: out)

/-- `TechnicalNormalizer.process`. -/
def techProcess (ts : List Tok) : Option (List Tok) :=
  techLoop (inTech ts) ts.length ts 0 []

/-- `Pipeline.normalize` restricted to a run in which no module rewrites any
token (the tokenizer part is spec-modelled, the cleanup is from
`pipeline.py`): tokenize, reassemble, canonicalize whitespace. -/
def normalizeCore (cs : List Char) : List Char :=
  finalCleanup (detokenize (tokenize cs))

/-! Sample-token builders for concrete instances. -/

def tokW (s : String) : Tok := { text := s, original_text := s, type := TokenType.WORD }

def tokWU (s : String) : Tok :=
  { text := s, original_text := s, type := TokenType.WORD, tags := ["IS_UNIT"] }

def tokN (s : String) : Tok := { text := s, original_text := s, type := TokenType.NUMBER }

def tokNU (s : String) : Tok :=
  { text := s, original_text := s, type := TokenType.NUMBER, tags := ["IS_UNIT"] }

def tokS (s : String) : Tok := { text := s, original_text := s, type := TokenType.SYMBOL }

def tokSub (s : String) : Tok :=
  { text := s, original_text := s, type := TokenType.SUBSCRIPT }

def tokSup (s : String) : Tok :=
  { text := s, original_text := s, type := TokenType.SUPERSCRIPT }

/-- A sample already-converted token (a rewritten `+`). -/
def cvTok : Tok :=
  { text := "کۆ", original_text := "+", type := TokenType.WORD,
    is_converted := true }

/-! # Theorems -/

/-! ## C1: lexer round-trip law -/

theorem matchDATE_pos {cs : List Char} {n : Nat} (h : matchDATE cs = some n) :
    1 ≤ n := by
  unfold matchDATE at h
  split at h
  · simp at h
  · split at h
    · split at h
      · split at h
        · simp only [Option.some.injEq] at h
          omega
        · simp at h
      · simp at h
    · simp at h

theorem matchTIME_pos {cs : List Char} {n : Nat} (h : matchTIME cs = some n) :
    1 ≤ n := by
  unfold matchTIME at h
  split at h
  · simp at h
  · split at h
    · split at h
      · simp at h
      · simp only [Option.some.injEq] at h
        omega
    · simp at h

theorem matchNUMBER_pos {cs : List Char} {n : Nat} (h : matchNUMBER cs = some n) :
    1 ≤ n := by
  unfold matchNUMBER at h
  split at h
  · simp at h
  · simp only [Option.some.injEq] at h
    omega

theorem matchTECH_pos {cs : List Char} {n : Nat} (h : matchTECH cs = some n) :
    1 ≤ n := by
  unfold matchTECH at h
  split at h
  · split at h
    · simp at h
    · simp only [Option.some.injEq] at h
      omega
  · split at h
    · simp at h
    · simp only [Option.some.injEq] at h
      omega
  · simp at h

theorem lexOne_pos (cs : List Char) : 1 ≤ (lexOne cs).1 := by
  unfold lexOne
  cases hD : matchDATE cs with
  | some n => simpa using matchDATE_pos hD
  | none =>
    cases hT : matchTIME cs with
    | some n => simpa using matchTIME_pos hT
    | none =>
      cases hN : matchNUMBER cs with
      | some n => simpa using matchNUMBER_pos hN
      | none =>
        cases hH : matchTECH cs with
        | some n => simpa using matchTECH_pos hH
        | none =>
          by_cases hw : (cs.takeWhile isWordChar).length = 0 <;> simp [hw] <;> omega

theorem string_mk_ne_empty {l : List Char} (h : l ≠ []) : String.mk l ≠ "" := by
  intro he
  exact h (congrArg String.data he)

theorem detok_cons (t : Tok) (ts : List Tok) :
    detokenize (t :: ts) =
      (if t.text = "" then [] else t.text.data ++ t.whitespace_after.data) ++
        detokenize ts := rfl

theorem tokenizeAux_detok :
    ∀ (f : Nat) (cs : List Char), cs.length ≤ f →
      detokenize (tokenizeAux f cs) = cs := by
  intro f
  induction f with
  | zero =>
    intro cs hcs
    have : cs = [] := List.length_eq_zero.mp (Nat.le_zero.mp hcs)
    subst this
    rfl
  | succ f ih =>
    intro cs hcs
    match cs with
    | [] => rfl
    | c :: cs' =>
      have hpos := lexOne_pos (c :: cs')
      have hstep :
          tokenizeAux (f + 1) (c :: cs') =
            { text := String.mk ((c :: cs').take (lexOne (c :: cs')).1),
              original_text := String.mk ((c :: cs').take (lexOne (c :: cs')).1),
              type := (lexOne (c :: cs')).2,
              whitespace_after :=
                String.mk (((c :: cs').drop (lexOne (c :: cs')).1).takeWhile isWsChar) } ::
              tokenizeAux f (((c :: cs').drop (lexOne (c :: cs')).1).dropWhile isWsChar) :=
        rfl
      have htext : ((c :: cs').take (lexOne (c :: cs')).1) ≠ [] := by
        intro he
        rw [← List.length_eq_zero] at he
        simp only [List.length_take, List.length_cons] at he
        omega
      have hrest2 :
          ((((c :: cs').drop (lexOne (c :: cs')).1)).dropWhile isWsChar).length ≤ f := by
        have h1 :=
          (List.dropWhile_sublist (l := ((c :: cs').drop (lexOne (c :: cs')).1))
            isWsChar).length_le
        have h2 := List.length_drop (lexOne (c :: cs')).1 (c :: cs')
        simp only [List.length_cons] at hcs h2 ⊢
        omega
      rw [hstep, detok_cons, ih _ hrest2, if_neg (string_mk_ne_empty htext),
        List.append_assoc]
      show (c :: cs').take (lexOne (c :: cs')).1 ++
          (((c :: cs').drop (lexOne (c :: cs')).1).takeWhile isWsChar ++
            ((c :: cs').drop (lexOne (c :: cs')).1).dropWhile isWsChar) = c :: cs'
      rw [List.takeWhile_append_dropWhile, List.take_append_drop]

/-- C1 (amended): `detokenize` after `tokenize` reproduces the input with its
leading whitespace removed; on inputs that do not begin with whitespace the
round trip is exact. -/
theorem c1_roundtrip_amended (cs : List Char) :
    detokenize (tokenize cs) = cs.dropWhile isWsChar := by
  unfold tokenize
  exact tokenizeAux_detok _ _ le_rfl

/-- C1 counterexample: on an input beginning with whitespace the round trip
drops that whitespace, so `detokenize (tokenize text)` differs from `text`. -/
theorem c1_counterexample :
    detokenize (tokenize " a".data) = "a".data ∧
      detokenize (tokenize " a".data) ≠ " a".data := by
  decide

/-! ## C9: whitespace canonicalization -/

theorem hasPair_cons_iff (a b c : Char) (l : List Char) :
    hasPair a b (c :: l) = true ↔
      (c = a ∧ l.head? = some b) ∨ hasPair a b l = true := by
  cases l with
  | nil => simp [hasPair]
  | cons y l' => simp [hasPair, and_comm]

theorem hasPair_tail {a b c : Char} {l : List Char}
    (h : hasPair a b l = true) : hasPair a b (c :: l) = true :=
  (hasPair_cons_iff a b c l).mpr (Or.inr h)

theorem head_collapseAux_true {p : Char → Bool} {out x : Char} :
    ∀ {cs : List Char}, (collapseAux p out true cs).head? = some x →
      p x = false := by
  intro cs
  induction cs with
  | nil => simp [collapseAux]
  | cons c rest ih =>
    intro h
    rw [collapseAux] at h
    by_cases hc : p c
    · rw [if_pos hc, if_pos rfl] at h
      exact ih h
    · rw [if_neg hc] at h
      simp at h
      rw [← h]
      simpa using hc

theorem head_collapseAux_false_src {p : Char → Bool} {out x : Char}
    {cs : List Char} (h : (collapseAux p out false cs).head? = some x)
    (hxo : x ≠ out) : cs.head? = some x ∧ p x = false := by
  cases cs with
  | nil => simp [collapseAux] at h
  | cons c rest =>
    rw [collapseAux] at h
    by_cases hc : p c
    · rw [if_pos hc, if_neg (by decide : ¬(false = true))] at h
      simp at h
      exact absurd h.symm hxo
    · rw [if_neg hc] at h
      simp at h
      constructor
      · simp [h]
      · rw [← h]
        simpa using hc

theorem not_mem_collapseAux {p : Char → Bool} {out x : Char}
    (hx : p x = true) (hxo : x ≠ out) :
    ∀ (r : Bool) (cs : List Char), x ∉ collapseAux p out r cs := by
  intro r cs
  induction cs generalizing r with
  | nil => simp [collapseAux]
  | cons c rest ih =>
    rw [collapseAux]
    by_cases hc : p c
    · rw [if_pos hc]
      cases r with
      | true => rw [if_pos rfl]; exact ih true
      | false =>
        rw [if_neg (by decide : ¬(false = true))]
        simp
        exact ⟨hxo, ih true⟩
    · rw [if_neg hc]
      simp
      refine ⟨fun hxc => ?_, ih false⟩
      rw [← hxc] at hc
      exact hc hx

theorem mem_collapseAux {p : Char → Bool} {out x : Char} :
    ∀ (r : Bool) (cs : List Char), x ∈ collapseAux p out r cs →
      x = out ∨ x ∈ cs := by
  intro r cs
  induction cs generalizing r with
  | nil => simp [collapseAux]
  | cons c rest ih =>
    rw [collapseAux]
    by_cases hc : p c
    · rw [if_pos hc]
      cases r with
      | true =>
        rw [if_pos rfl]
        intro h
        rcases ih true h with h1 | h1
        · exact Or.inl h1
        · exact Or.inr (List.mem_cons_of_mem c h1)
      | false =>
        rw [if_neg (by decide : ¬(false = true))]
        simp
        intro h
        rcases h with h | h
        · exact Or.inl h
        · rcases ih true h with h1 | h1
          · exact Or.inl h1
          · exact Or.inr (Or.inr h1)
    · rw [if_neg hc]
      simp
      intro h
      rcases h with h | h
      · exact Or.inr (Or.inl h)
      · rcases ih false h with h1 | h1
        · exact Or.inl h1
        · exact Or.inr (Or.inr h1)

theorem collapse_no_out_pair {p : Char → Bool} {out : Char}
    (hout : p out = true) :
    ∀ (r : Bool) (cs : List Char),
      hasPair out out (collapseAux p out r cs) = false := by
  intro r cs
  induction cs generalizing r with
  | nil => simp [collapseAux, hasPair]
  | cons c rest ih =>
    rw [collapseAux]
    by_cases hc : p c
    · rw [if_pos hc]
      cases r with
      | true => rw [if_pos rfl]; exact ih true
      | false =>
        rw [if_neg (by decide : ¬(false = true))]
        by_contra hcontra
        rw [Bool.not_eq_false, hasPair_cons_iff] at hcontra
        rcases hcontra with ⟨_, hhd⟩ | hrec
        · have := head_collapseAux_true hhd
          rw [this] at hout
          simp at hout
        · rw [ih true] at hrec
          simp at hrec
    · rw [if_neg hc]
      by_contra hcontra
      rw [Bool.not_eq_false, hasPair_cons_iff] at hcontra
      rcases hcontra with ⟨hce, _⟩ | hrec
      · subst hce
        rw [hout] at hc
        exact hc rfl
      · rw [ih false] at hrec
        simp at hrec

theorem hasPair_collapseAux_mono {p : Char → Bool} {out a b : Char}
    (hpb : p b = false) (hao : a ≠ out) (hout : p out = true) :
    ∀ (r : Bool) (cs : List Char),
      hasPair a b (collapseAux p out r cs) = true → hasPair a b cs = true := by
  intro r cs
  induction cs generalizing r with
  | nil => simp [collapseAux, hasPair]
  | cons c rest ih =>
    rw [collapseAux]
    by_cases hc : p c
    · rw [if_pos hc]
      cases r with
      | true =>
        rw [if_pos rfl]
        intro h
        exact hasPair_tail (ih true h)
      | false =>
        rw [if_neg (by decide : ¬(false = true))]
        intro h
        rw [hasPair_cons_iff] at h
        rcases h with ⟨hoa, _⟩ | h
        · exact absurd hoa.symm hao
        · exact hasPair_tail (ih true h)
    · rw [if_neg hc]
      intro h
      rw [hasPair_cons_iff] at h
      rcases h with ⟨hca, hhd⟩ | h
      · have hbo : b ≠ out := by
          intro hbo
          rw [hbo, hout] at hpb
          simp at hpb
        have := head_collapseAux_false_src hhd hbo
        rw [hasPair_cons_iff]
        exact Or.inl ⟨hca, this.1⟩
      · exact hasPair_tail (ih false h)

theorem mem_dropSpaceBeforeNl {x : Char} :
    ∀ (l : List Char), x ∈ dropSpaceBeforeNl l → x ∈ l := by
  intro l
  induction l using dropSpaceBeforeNl.induct with
  | case1 => simp [dropSpaceBeforeNl]
  | case2 c => simp [dropSpaceBeforeNl]
  | case3 c d rest hcd ih =>
    rw [dropSpaceBeforeNl, if_pos hcd]
    simp
    intro h
    rcases h with h | h
    · exact Or.inr (Or.inl (h.trans hcd.2.symm))
    · exact Or.inr (Or.inr (ih h))
  | case4 c d rest hcd ih =>
    rw [dropSpaceBeforeNl, if_neg hcd]
    simp
    intro h
    rcases h with h | h
    · exact Or.inl h
    · simpa using Or.inr (ih h)

theorem head_dropSpaceBeforeNl {x : Char} :
    ∀ (l : List Char), (dropSpaceBeforeNl l).head? = some x →
      l.head? = some x ∨ (x = '\n' ∧ ∃ r, l = ' ' :: '\n' :: r) := by
  intro l
  match l with
  | [] => simp [dropSpaceBeforeNl]
  | [c] => simp [dropSpaceBeforeNl]
  | c :: d :: rest =>
    rw [dropSpaceBeforeNl]
    by_cases hcd : c = ' ' ∧ d = '\n'
    · rw [if_pos hcd]
      intro h
      simp at h
      exact Or.inr ⟨h.symm, rest, by rw [hcd.1, hcd.2]⟩
    · rw [if_neg hcd]
      intro h
      simp at h
      exact Or.inl (by simp [h])

theorem hasPair_dropSpaceBeforeNl_mono {a b : Char}
    (ha : a ≠ '\n') (hb : b ≠ '\n') :
    ∀ (l : List Char), hasPair a b (dropSpaceBeforeNl l) = true →
      hasPair a b l = true := by
  intro l
  induction l using dropSpaceBeforeNl.induct with
  | case1 => simp [dropSpaceBeforeNl]
  | case2 c => simp [dropSpaceBeforeNl, hasPair]
  | case3 c d rest hcd ih =>
    rw [dropSpaceBeforeNl, if_pos hcd]
    intro h
    rw [hasPair_cons_iff] at h
    rcases h with ⟨hna, _⟩ | h
    · exact absurd hna.symm ha
    · exact hasPair_tail (hasPair_tail (ih h))
  | case4 c d rest hcd ih =>
    rw [dropSpaceBeforeNl, if_neg hcd]
    intro h
    rw [hasPair_cons_iff] at h
    rcases h with ⟨hca, hhd⟩ | h
    · rcases head_dropSpaceBeforeNl _ hhd with h1 | ⟨hbn, _⟩
      · simp at h1
        rw [hasPair_cons_iff]
        exact Or.inl ⟨hca, by simp [h1]⟩
      · exact absurd hbn hb
    · exact hasPair_tail (ih h)

theorem no_spaceNl_dropSpaceBeforeNl :
    ∀ (l : List Char), hasPair ' ' ' ' l = false →
      hasPair ' ' '\n' (dropSpaceBeforeNl l) = false := by
  intro l
  induction l using dropSpaceBeforeNl.induct with
  | case1 => intro _; simp [dropSpaceBeforeNl, hasPair]
  | case2 c => intro _; simp [dropSpaceBeforeNl, hasPair]
  | case3 c d rest hcd ih =>
    intro h
    rw [dropSpaceBeforeNl, if_pos hcd]
    by_contra hx
    rw [Bool.not_eq_false, hasPair_cons_iff] at hx
    rcases hx with ⟨hne, _⟩ | hx
    · exact absurd hne (by decide)
    · have hrest : hasPair ' ' ' ' rest = false := by
        by_contra hr
        rw [Bool.not_eq_false] at hr
        rw [hasPair_tail (hasPair_tail hr)] at h
        simp at h
      rw [ih hrest] at hx
      exact Bool.false_ne_true hx
  | case4 c d rest hcd ih =>
    intro h
    rw [dropSpaceBeforeNl, if_neg hcd]
    by_contra hx
    rw [Bool.not_eq_false, hasPair_cons_iff] at hx
    rcases hx with ⟨hcs, hhd⟩ | hx
    · rcases head_dropSpaceBeforeNl _ hhd with h1 | ⟨_, r, hr⟩
      · simp at h1
        exact hcd ⟨hcs, h1⟩
      · have : d = ' ' := by
          have := congrArg List.head? hr
          simpa using this
        have hpair : hasPair ' ' ' ' (c :: d :: rest) = true := by
          rw [hasPair_cons_iff]
          exact Or.inl ⟨hcs, by simp [this]⟩
        rw [hpair] at h
        simp at h
    · have hrest : hasPair ' ' ' ' (d :: rest) = false := by
        by_contra hr
        rw [Bool.not_eq_false] at hr
        rw [hasPair_tail hr] at h
        simp at h
      rw [ih hrest] at hx
      exact Bool.false_ne_true hx

theorem mem_dropSpaceAfterNl {x : Char} :
    ∀ (l : List Char), x ∈ dropSpaceAfterNl l → x ∈ l := by
  intro l
  induction l using dropSpaceAfterNl.induct with
  | case1 => simp [dropSpaceAfterNl]
  | case2 c => simp [dropSpaceAfterNl]
  | case3 c d rest hcd ih =>
    rw [dropSpaceAfterNl, if_pos hcd]
    simp
    intro h
    rcases h with h | h
    · exact Or.inl (h.trans hcd.1.symm)
    · exact Or.inr (Or.inr (ih h))
  | case4 c d rest hcd ih =>
    rw [dropSpaceAfterNl, if_neg hcd]
    simp
    intro h
    rcases h with h | h
    · exact Or.inl h
    · simpa using Or.inr (ih h)

theorem head_dropSpaceAfterNl :
    ∀ (l : List Char), (dropSpaceAfterNl l).head? = l.head? := by
  intro l
  match l with
  | [] => rfl
  | [c] => rfl
  | c :: d :: rest =>
    rw [dropSpaceAfterNl]
    by_cases hcd : c = '\n' ∧ d = ' '
    · rw [if_pos hcd]
      simp [hcd.1]
    · rw [if_neg hcd]
      simp

theorem hasPair_dropSpaceAfterNl_mono {a b : Char} (ha : a ≠ '\n') :
    ∀ (l : List Char), hasPair a b (dropSpaceAfterNl l) = true →
      hasPair a b l = true := by
  intro l
  induction l using dropSpaceAfterNl.induct with
  | case1 => simp [dropSpaceAfterNl]
  | case2 c => simp [dropSpaceAfterNl, hasPair]
  | case3 c d rest hcd ih =>
    rw [dropSpaceAfterNl, if_pos hcd]
    intro h
    rw [hasPair_cons_iff] at h
    rcases h with ⟨hna, _⟩ | h
    · exact absurd hna.symm ha
    · exact hasPair_tail (hasPair_tail (ih h))
  | case4 c d rest hcd ih =>
    rw [dropSpaceAfterNl, if_neg hcd]
    intro h
    rw [hasPair_cons_iff] at h
    rcases h with ⟨hca, hhd⟩ | h
    · rw [head_dropSpaceAfterNl] at hhd
      simp at hhd
      rw [hasPair_cons_iff]
      exact Or.inl ⟨hca, by simp [hhd]⟩
    · exact hasPair_tail (ih h)

theorem no_nlSpace_dropSpaceAfterNl :
    ∀ (l : List Char), hasPair ' ' ' ' l = false →
      hasPair '\n' ' ' (dropSpaceAfterNl l) = false := by
  intro l
  induction l using dropSpaceAfterNl.induct with
  | case1 => intro _; simp [dropSpaceAfterNl, hasPair]
  | case2 c => intro _; simp [dropSpaceAfterNl, hasPair]
  | case3 c d rest hcd ih =>
    intro h
    rw [dropSpaceAfterNl, if_pos hcd]
    by_contra hx
    rw [Bool.not_eq_false, hasPair_cons_iff] at hx
    rcases hx with ⟨_, hhd⟩ | hx
    · rw [head_dropSpaceAfterNl] at hhd
      cases rest with
      | nil => simp at hhd
      | cons e rest' =>
        simp at hhd
        have hpair : hasPair ' ' ' ' (c :: d :: e :: rest') = true := by
          apply hasPair_tail
          rw [hasPair_cons_iff]
          exact Or.inl ⟨hcd.2, by simp [hhd]⟩
        rw [hpair] at h
        simp at h
    · have hrest : hasPair ' ' ' ' rest = false := by
        by_contra hr
        rw [Bool.not_eq_false] at hr
        rw [hasPair_tail (hasPair_tail hr)] at h
        simp at h
      rw [ih hrest] at hx
      exact Bool.false_ne_true hx
  | case4 c d rest hcd ih =>
    intro h
    rw [dropSpaceAfterNl, if_neg hcd]
    by_contra hx
    rw [Bool.not_eq_false, hasPair_cons_iff] at hx
    rcases hx with ⟨hcn, hhd⟩ | hx
    · rw [head_dropSpaceAfterNl] at hhd
      simp at hhd
      exact hcd ⟨hcn, hhd⟩
    · have hrest : hasPair ' ' ' ' (d :: rest) = false := by
        by_contra hr
        rw [Bool.not_eq_false] at hr
        rw [hasPair_tail hr] at h
        simp at h
      rw [ih hrest] at hx
      exact Bool.false_ne_true hx

theorem hasPair_append_left {a b : Char} (xs : List Char) {ys : List Char}
    (h : hasPair a b ys = true) : hasPair a b (xs ++ ys) = true := by
  induction xs with
  | nil => simpa using h
  | cons x xs' ih => exact hasPair_tail ih

theorem hasPair_append_right {a b : Char} {xs : List Char} (ys : List Char)
    (h : hasPair a b xs = true) : hasPair a b (xs ++ ys) = true := by
  induction xs with
  | nil => simp [hasPair] at h
  | cons x xs' ih =>
    rw [hasPair_cons_iff] at h
    rcases h with ⟨hxa, hhd⟩ | h
    · cases xs' with
      | nil => simp at hhd
      | cons z zs =>
        simp at hhd
        rw [List.cons_append, hasPair_cons_iff]
        exact Or.inl ⟨hxa, by simp [hhd]⟩
    · rw [List.cons_append]
      exact hasPair_tail (ih h)

theorem hasPair_subseg {a b : Char} {l₁ l₂ : List Char} (hinf : l₁ <:+: l₂)
    (h : hasPair a b l₁ = true) : hasPair a b l₂ = true := by
  obtain ⟨s, t, rfl⟩ := hinf
  rw [List.append_assoc]
  exact hasPair_append_left s (hasPair_append_right t h)

theorem pyStrip_subseg (cs : List Char) : pyStrip cs <:+: cs := by
  unfold pyStrip
  have h1 : cs.dropWhile isStripWs <:+ cs := List.dropWhile_suffix isStripWs
  have h2 : (cs.dropWhile isStripWs).reverse.dropWhile isStripWs <:+
      (cs.dropWhile isStripWs).reverse := List.dropWhile_suffix isStripWs
  have h3 : ((cs.dropWhile isStripWs).reverse.dropWhile isStripWs).reverse <+:
      cs.dropWhile isStripWs := by
    rw [← List.reverse_suffix, List.reverse_reverse]
    exact h2
  exact h3.isInfix.trans h1.isInfix

theorem head_dropWhile_not {f : Char → Bool} :
    ∀ {l : List Char} {x : Char}, (l.dropWhile f).head? = some x →
      f x = false := by
  intro l
  induction l with
  | nil => intro x h; simp at h
  | cons c rest ih =>
    intro x h
    rw [List.dropWhile_cons] at h
    by_cases hc : f c
    · rw [if_pos hc] at h
      exact ih h
    · rw [if_neg hc] at h
      simp at h
      rw [← h]
      simpa using hc

theorem getLast_dropWhile {f : Char → Bool} {l : List Char}
    (h : l.dropWhile f ≠ []) : (l.dropWhile f).getLast? = l.getLast? := by
  obtain ⟨t, ht⟩ := List.dropWhile_suffix f (l := l)
  conv_rhs => rw [← ht]
  exact (List.getLast?_append_of_ne_nil t h).symm

theorem pyStrip_head {cs : List Char} {x : Char}
    (h : (pyStrip cs).head? = some x) : isStripWs x = false := by
  unfold pyStrip at h
  rw [List.head?_reverse] at h
  have hne : (cs.dropWhile isStripWs).reverse.dropWhile isStripWs ≠ [] := by
    intro he
    rw [he] at h
    simp at h
  rw [getLast_dropWhile hne, List.getLast?_reverse] at h
  exact head_dropWhile_not h

theorem pyStrip_last {cs : List Char} {x : Char}
    (h : (pyStrip cs).getLast? = some x) : isStripWs x = false := by
  unfold pyStrip at h
  rw [List.getLast?_reverse] at h
  exact head_dropWhile_not h

theorem stageA_props (cs : List Char) :
    '\t' ∉ collapseRuns isSpTab ' ' cs ∧
      hasPair ' ' ' ' (collapseRuns isSpTab ' ' cs) = false :=
  ⟨not_mem_collapseAux (by decide) (by decide) false cs,
   collapse_no_out_pair (by decide) false cs⟩

theorem stageB_props (l : List Char) (h1 : '\t' ∉ l)
    (h2 : hasPair ' ' ' ' l = false) :
    '\t' ∉ collapseRuns isNlCr '\n' l ∧ '\r' ∉ collapseRuns isNlCr '\n' l ∧
      hasPair ' ' ' ' (collapseRuns isNlCr '\n' l) = false := by
  refine ⟨?_, not_mem_collapseAux (by decide) (by decide) false l, ?_⟩
  · intro hmem
    rcases mem_collapseAux false l hmem with h | h
    · exact absurd h (by decide)
    · exact h1 h
  · by_contra hx
    rw [Bool.not_eq_false] at hx
    rw [hasPair_collapseAux_mono (by decide) (by decide) (by decide) false l hx]
      at h2
    simp at h2

theorem stageC_props (l : List Char) (h1 : '\t' ∉ l) (h2 : '\r' ∉ l)
    (h3 : hasPair ' ' ' ' l = false) :
    '\t' ∉ dropSpaceBeforeNl l ∧ '\r' ∉ dropSpaceBeforeNl l ∧
      hasPair ' ' ' ' (dropSpaceBeforeNl l) = false ∧
      hasPair ' ' '\n' (dropSpaceBeforeNl l) = false := by
  refine ⟨fun hm => h1 (mem_dropSpaceBeforeNl l hm),
    fun hm => h2 (mem_dropSpaceBeforeNl l hm), ?_,
    no_spaceNl_dropSpaceBeforeNl l h3⟩
  by_contra hx
  rw [Bool.not_eq_false] at hx
  rw [hasPair_dropSpaceBeforeNl_mono (by decide) (by decide) l hx] at h3
  simp at h3

theorem stageD_props (l : List Char) (h1 : '\t' ∉ l) (h2 : '\r' ∉ l)
    (h3 : hasPair ' ' ' ' l = false) (h4 : hasPair ' ' '\n' l = false) :
    '\t' ∉ dropSpaceAfterNl l ∧ '\r' ∉ dropSpaceAfterNl l ∧
      hasPair ' ' ' ' (dropSpaceAfterNl l) = false ∧
      hasPair ' ' '\n' (dropSpaceAfterNl l) = false ∧
      hasPair '\n' ' ' (dropSpaceAfterNl l) = false := by
  refine ⟨fun hm => h1 (mem_dropSpaceAfterNl l hm),
    fun hm => h2 (mem_dropSpaceAfterNl l hm), ?_, ?_,
    no_nlSpace_dropSpaceAfterNl l h3⟩
  · by_contra hx
    rw [Bool.not_eq_false] at hx
    rw [hasPair_dropSpaceAfterNl_mono (by decide) l hx] at h3
    simp at h3
  · by_contra hx
    rw [Bool.not_eq_false] at hx
    rw [hasPair_dropSpaceAfterNl_mono (by decide) l hx] at h4
    simp at h4

theorem finalCleanup_props (cs : List Char) :
    '\t' ∉ finalCleanup cs ∧ '\r' ∉ finalCleanup cs ∧
      hasPair ' ' ' ' (finalCleanup cs) = false ∧
      hasPair ' ' '\n' (finalCleanup cs) = false ∧
      hasPair '\n' ' ' (finalCleanup cs) = false ∧
      (∀ x, (finalCleanup cs).head? = some x → isStripWs x = false) ∧
      (∀ x, (finalCleanup cs).getLast? = some x → isStripWs x = false) := by
  obtain ⟨a1, a2⟩ := stageA_props cs
  obtain ⟨b1, b2, b3⟩ := stageB_props _ a1 a2
  obtain ⟨c1, c2, c3, c4⟩ := stageC_props _ b1 b2 b3
  obtain ⟨d1, d2, d3, d4, d5⟩ := stageD_props _ c1 c2 c3 c4
  have hinf := pyStrip_subseg
    (dropSpaceAfterNl (dropSpaceBeforeNl
      (collapseRuns isNlCr '\n' (collapseRuns isSpTab ' ' cs))))
  refine ⟨fun hm => d1 (hinf.sublist.subset hm),
    fun hm => d2 (hinf.sublist.subset hm), ?_, ?_, ?_,
    fun x hx => pyStrip_head hx, fun x hx => pyStrip_last hx⟩
  · by_contra hx
    rw [Bool.not_eq_false] at hx
    rw [hasPair_subseg hinf hx] at d3
    simp at d3
  · by_contra hx
    rw [Bool.not_eq_false] at hx
    rw [hasPair_subseg hinf hx] at d4
    simp at d4
  · by_contra hx
    rw [Bool.not_eq_false] at hx
    rw [hasPair_subseg hinf hx] at d5
    simp at d5

/-- C9 (amended): the final cleanup of `Pipeline.normalize` yields text with
no tab or carriage return, no two consecutive spaces, no space adjacent to a
line break, and no leading or trailing whitespace; and reassembly ignores
empty-text tokens. (Two line breaks separated only by spaces/tabs collapse to
adjacent line breaks that are not re-collapsed, so consecutive line breaks can
remain — the only part of the original claim that fails.) -/
theorem c9_canonical_amended :
    (∀ cs : List Char, wsCanonicalWeak (finalCleanup cs) = true) ∧
      (∀ ts : List Tok,
        detokenize ts = detokenize (ts.filter fun t => t.text ≠ "")) := by
  constructor
  · intro cs
    obtain ⟨p1, p2, p3, p4, p5, p6, p7⟩ := finalCleanup_props cs
    unfold wsCanonicalWeak
    have e1 : (finalCleanup cs).any (· = '\t') = false := by
      by_contra hx
      rw [Bool.not_eq_false, List.any_eq_true] at hx
      obtain ⟨y, hy, hyeq⟩ := hx
      simp at hyeq
      exact p1 (hyeq ▸ hy)
    have e2 : (finalCleanup cs).any (· = '\r') = false := by
      by_contra hx
      rw [Bool.not_eq_false, List.any_eq_true] at hx
      obtain ⟨y, hy, hyeq⟩ := hx
      simp at hyeq
      exact p2 (hyeq ▸ hy)
    have e6 : isStripWs ((finalCleanup cs).headD 'x') = false := by
      cases hh : (finalCleanup cs).head? with
      | none =>
        rw [List.headD_eq_head?, hh]
        decide
      | some y =>
        rw [List.headD_eq_head?, hh]
        exact p6 y hh
    have e7 : isStripWs ((finalCleanup cs).getLastD 'x') = false := by
      cases hh : (finalCleanup cs).getLast? with
      | none =>
        rw [List.getLastD_eq_getLast?, hh]
        decide
      | some y =>
        rw [List.getLastD_eq_getLast?, hh]
        exact p7 y hh
    rw [e1, e2, p3, p4, p5, e6, e7]
    rfl
  · intro ts
    induction ts with
    | nil => rfl
    | cons t rest ih =>
      by_cases ht : t.text = ""
      · rw [detok_cons, if_pos ht, List.filter_cons, ih]
        simp [ht]
      · rw [detok_cons, if_neg ht, List.filter_cons]
        have hd : decide (t.text ≠ "") = true := by simp [ht]
        rw [hd, if_pos rfl, detok_cons, if_neg ht, ih]

/-- C9 counterexample: with no module active, normalizing `"a\n \nb"` yields
`"a\n\nb"`, which contains two consecutive line breaks — the output is not
whitespace-canonical in the claimed sense. -/
theorem c9_counterexample :
    normalizeCore "a\n \nb".data = "a\n\nb".data ∧
      wsCanonical (normalizeCore "a\n \nb".data) = false := by
  decide

/-! ## C2: date field-order heuristic -/

/-- C2 counterexample: on `"2025/13/01"` the spec heuristic (first field has 4
digits ⇒ year-month-day) reads day 1, month 13, year 2025 and would render it,
but the code requires the middle field to lie in 1..12 and returns the text
unchanged. -/
theorem c2_counterexample :
    dateSpecRead "2025/13/01" = some (1, 13, 2025) ∧
      convert_date "2025/13/01" = "2025/13/01" ∧
      renderDate 1 13 2025 ≠ "2025/13/01" := by
  decide

/-- C2 (amended): for a DATE text splitting into exactly three fields, if the
first field has 4 digits and the middle field parses to a value in 1..12 the
date is read year-month-day and rendered as
`{day}ی {month}ی ساڵی {year}`; when that test fails but the last field has 4
digits, it is the year and of the two remaining values one exceeding 12 (the
other not) is the day, defaulting to day-before-month. -/
theorem c2_date_heuristic_amended (t p0 p1 p2 : String)
    (hsplit : dateParts t = [p0, p1, p2]) :
    (∀ v1 y d : Int, p0.length = 4 → pyInt? p1 = some v1 → 1 ≤ v1 → v1 ≤ 12 →
      pyInt? p0 = some y → pyInt? p2 = some d →
      convert_date t = renderDate d v1 y) ∧
    (∀ v1 v2 y : Int,
      (p0.length ≠ 4 ∨ ∃ w, pyInt? p1 = some w ∧ ¬(1 ≤ w ∧ w ≤ 12)) →
      p2.length = 4 → pyInt? p0 = some v1 → pyInt? p1 = some v2 →
      pyInt? p2 = some y →
      convert_date t =
        renderDate
          (if 12 < v1 ∧ v2 ≤ 12 then v1 else if 12 < v2 ∧ v1 ≤ 12 then v2 else v1)
          (if 12 < v1 ∧ v2 ≤ 12 then v2 else if 12 < v2 ∧ v1 ≤ 12 then v1 else v2)
          y) := by
  constructor
  · intro v1 y d h0 hp1 hlo hhi hp0 hp2
    unfold convert_date dateCore
    rw [hsplit]
    simp only [h0, if_true, hp1, hp0, hp2, if_pos (And.intro hlo hhi)]
    rfl
  · intro v1 v2 y hfirst h2 hp0 hp1 hp2
    have helif : (dateElif t p0 p1 p2).getD t =
        renderDate
          (if 12 < v1 ∧ v2 ≤ 12 then v1 else if 12 < v2 ∧ v1 ≤ 12 then v2 else v1)
          (if 12 < v1 ∧ v2 ≤ 12 then v2 else if 12 < v2 ∧ v1 ≤ 12 then v1 else v2)
          y := by
      unfold dateElif
      rw [if_pos h2, hp0, hp1, hp2]
      by_cases hc1 : 12 < v1 ∧ v2 ≤ 12
      · have hc1' : v1 > 12 ∧ v2 ≤ 12 := hc1
        simp only [if_pos hc1, if_pos hc1']
        rfl
      · have hc1' : ¬(v1 > 12 ∧ v2 ≤ 12) := hc1
        by_cases hc2 : 12 < v2 ∧ v1 ≤ 12
        · have hc2' : v2 > 12 ∧ v1 ≤ 12 := hc2
          simp only [if_neg hc1, if_neg hc1', if_pos hc2, if_pos hc2']
          rfl
        · have hc2' : ¬(v2 > 12 ∧ v1 ≤ 12) := hc2
          simp only [if_neg hc1, if_neg hc1', if_neg hc2, if_neg hc2']
          rfl
    unfold convert_date dateCore
    rw [hsplit]
    rcases hfirst with h0 | ⟨w, hw, hwr⟩
    · simp only [if_neg h0]
      exact helif
    · have hw2 : w = v2 := by
        rw [hw] at hp1
        exact Option.some.inj hp1
      subst hw2
      by_cases h0 : p0.length = 4
      · simp only [h0, if_true, hp1, if_neg hwr]
        exact helif
      · simp only [if_neg h0]
        exact helif

/-- C2 witness: `"2025/12/03"` is read as day 3, month 12, year 2025. -/
theorem c2_witness :
    dateParts "2025/12/03" = ["2025", "12", "03"] ∧
      convert_date "2025/12/03" = renderDate 3 12 2025 ∧
      renderDate 3 12 2025 =
        "سێی کانونی یەکەمی ساڵی دوو هەزار و بیست و پێنج" :=
  ⟨by decide,
   (c2_date_heuristic_amended "2025/12/03" "2025" "12" "03" (by decide)).1
     12 2025 3 (by decide) (by decide) (by decide) (by decide) (by decide)
     (by decide),
   by decide⟩

/-! ## C7: unparseable date/time shapes pass through -/

theorem pyNat_empty {s : String} (h : s.data.isEmpty = true) : pyNat? s = none := by
  have hs : s = "" := by
    cases s with
    | mk d =>
      simp at h
      rw [h]
  rw [hs]
  decide

theorem allParse_none :
    ∀ (l : List String), (l.any fun s => s.data.isEmpty) = true →
      allParse l = none := by
  intro l
  induction l with
  | nil => simp
  | cons s rest ih =>
    intro h
    simp only [List.any_cons, Bool.or_eq_true] at h
    rw [allParse]
    rcases h with h | h
    · rw [pyNat_empty h]
    · rw [ih h]
      cases pyNat? s <;> rfl

theorem dateElif_getD_none {t p0 p1 p2 : String}
    (h : pyInt? p0 = none ∨ pyInt? p1 = none ∨ pyInt? p2 = none) :
    (dateElif t p0 p1 p2).getD t = t := by
  unfold dateElif
  by_cases h2 : p2.length = 4
  · rw [if_pos h2]
    rcases h with h | h | h <;> rw [h] <;>
      first
      | rfl
      | (cases hp2 : pyInt? p2 <;> rfl)
      | (cases hp2 : pyInt? p2 <;> cases hp0 : pyInt? p0 <;> rfl)
  · rw [if_neg h2]
    rfl

/-- C7: a DATE token whose text does not split into three fields, or whose
fields fail integer parsing, and a TIME token with an empty colon piece, are
returned unchanged; the conversion functions are total, so the module never
raises. -/
theorem c7_datetime_passthrough :
    (∀ t : String, (dateParts t).length ≠ 3 → convert_date t = t) ∧
    (∀ t p0 p1 p2 : String, dateParts t = [p0, p1, p2] →
      pyInt? p0 = none ∨ pyInt? p1 = none ∨ pyInt? p2 = none →
      convert_date t = t) ∧
    (∀ t suffix : String, (timeParts t).any (fun s => s.data.isEmpty) = true →
      convert_time t suffix = t) := by
  refine ⟨?_, ?_, ?_⟩
  · intro t hlen
    unfold convert_date dateCore
    rcases hdp : dateParts t with _ | ⟨a, _ | ⟨b, _ | ⟨c, _ | ⟨d, rest⟩⟩⟩⟩ <;>
      first
      | rfl
      | (exact absurd (by rw [hdp]; rfl) hlen)
  · intro t p0 p1 p2 hdp hnone
    unfold convert_date dateCore
    rw [hdp]
    by_cases h0 : p0.length = 4
    · simp only [h0, if_true]
      rcases hp1 : pyInt? p1 with _ | v1
      · rfl
      · dsimp only
        have hnone' : pyInt? p0 = none ∨ pyInt? p2 = none := by
          rcases hnone with h | h | h
          · exact Or.inl h
          · rw [hp1] at h; cases h
          · exact Or.inr h
        by_cases hr : 1 ≤ v1 ∧ v1 ≤ 12
        · rw [if_pos hr]
          rcases hnone' with h | h
          · rw [h]
            cases pyInt? p2 <;> rfl
          · rw [h]
            cases pyInt? p0 <;> rfl
        · rw [if_neg hr]
          exact dateElif_getD_none (hnone'.elim Or.inl (fun h => Or.inr (Or.inr h)))
    · simp only [if_neg h0]
      exact dateElif_getD_none hnone
  · intro t sfx hany
    unfold convert_time timeCore timeHM parseTimeParts
    rw [allParse_none _ hany]
    rfl

/-- C7 witness: a four-field date, a date with a non-numeric field, and a bare
colon time all pass through unchanged. -/
theorem c7_witness :
    ((dateParts "1/2/3/4").length ≠ 3 ∧ convert_date "1/2/3/4" = "1/2/3/4") ∧
      (dateParts "12/ab/2020" = ["12", "ab", "2020"] ∧ pyInt? "ab" = none ∧
        convert_date "12/ab/2020" = "12/ab/2020") ∧
      ((timeParts ":").any (fun s => s.data.isEmpty) = true ∧
        convert_time ":" "PM" = ":") :=
  ⟨⟨by decide, c7_datetime_passthrough.1 "1/2/3/4" (by decide)⟩,
   ⟨by decide, by decide,
    c7_datetime_passthrough.2.1 "12/ab/2020" "12" "ab" "2020" (by decide)
      (Or.inr (Or.inl (by decide)))⟩,
   ⟨by decide, c7_datetime_passthrough.2.2 ":" "PM" (by decide)⟩⟩

/-! ## C4: time rendering and the day-period word -/

/-- C4 counterexample: `"0:30"` with no suffix has no AM/PM/night signal and a
parsed hour of 0 ≤ 12, yet the code renders it with the midnight period word
instead of the period-free form the claim requires. -/
theorem c4_counterexample :
    timeHM "0:30" = some (0, 30) ∧
      isPmSuffix "" = false ∧ isAmSuffix "" = false ∧ isShewSuffix "" = false ∧
      convert_time "0:30" "" = "دوازدە و نیوی نیوەشەو" ∧
      convert_time "0:30" "" ≠
        renderTimePlain (int_to_kurdish 12) (int_to_kurdish 30) 30 := by
  decide

/-- C4 (amended): for a parsed TIME, the day-period word is omitted exactly
when no AM/PM/night signal exists and the carry-adjusted hour lies in 1..12;
with a signal (or hour 0, or hour above 12) the phrase carries the day-period
label of the 24-hour bucket, and 24-hour value 12 (e.g. `"12:30"` plus a
PM-equivalent suffix) falls in the noon bucket. -/
theorem c4_time_period_amended (text suffix : String) (h0 m0 : Nat)
    (hparse : timeHM text = some (h0, m0)) :
    ((isPmSuffix suffix || isAmSuffix suffix || isShewSuffix suffix) = false →
      1 ≤ h0 + m0 / 60 → h0 + m0 / 60 ≤ 12 →
      convert_time text suffix =
        renderTimePlain (int_to_kurdish (hour12Of ((h0 + m0 / 60) % 24)))
          (int_to_kurdish (m0 % 60)) (m0 % 60)) ∧
    (∀ pm am : Bool,
      shewAdjust (h0 + m0 / 60) (isPmSuffix suffix) (isAmSuffix suffix)
          (isShewSuffix suffix) = (pm, am) →
      (pm || am || isShewSuffix suffix || decide (12 < h0 + m0 / 60) ||
          decide (h0 + m0 / 60 = 0)) = true →
      convert_time text suffix =
        renderTimePeriod (int_to_kurdish (hour12Of (hour24Of (h0 + m0 / 60) pm am)))
          (int_to_kurdish (m0 % 60))
          (getTimePeriod (hour24Of (h0 + m0 / 60) pm am)) (m0 % 60)) := by
  constructor
  · intro hsig hlo hhi
    simp only [Bool.or_eq_false_iff] at hsig
    obtain ⟨⟨hpm, ham⟩, hshew⟩ := hsig
    unfold convert_time timeCore
    rw [hparse]
    dsimp only
    rw [hpm, ham, hshew]
    split
    · rename_i hcond
      exfalso
      simp [shewAdjust] at hcond
      omega
    · rfl
  · intro pm am hsh hcond
    unfold convert_time timeCore
    rw [hparse]
    dsimp only
    rw [hsh]
    split
    · rfl
    · rename_i hfalse
      exfalso
      apply hfalse
      simpa using hcond

/-- C4 witness: `"12:30"` with a PM suffix gets the noon label (24-hour 12 is
in the [12,14) bucket); `"12:30"` alone renders without a period word. -/
theorem c4_witness :
    (timeHM "12:30" = some (12, 30) ∧
      convert_time "12:30" "PM" =
        renderTimePeriod (int_to_kurdish 12) (int_to_kurdish 30)
          (getTimePeriod 12) 30 ∧
      getTimePeriod 12 = "نیوەڕۆ" ∧
      convert_time "12:30" "PM" = "دوازدە و نیوی نیوەڕۆ") ∧
    (convert_time "12:30" "" =
        renderTimePlain (int_to_kurdish 12) (int_to_kurdish 30) 30 ∧
      convert_time "12:30" "" = "دوازدە و نیو") :=
  ⟨⟨by decide,
    (c4_time_period_amended "12:30" "PM" 12 30 (by decide)).2 true false
      (by decide) (by decide),
    by decide, by decide⟩,
   ⟨(c4_time_period_amended "12:30" "" 12 30 (by decide)).1 (by decide)
      (by decide) (by decide),
    by decide⟩⟩

/-! ## C6: subscript/superscript conversion and unit suppression -/

theorem getElem?_after_prev_fix (ts1 : List Tok) (i : Nat) :
    (if 0 < i then
        match ts1[i - 1]? with
        | some p =>
          if p.whitespace_after = "" then
            ts1.set (i - 1) { p with whitespace_after := " " }
          else ts1
        | none => ts1
      else ts1)[i]? = ts1[i]? := by
  by_cases hi : 0 < i
  · rw [if_pos hi]
    cases hp : ts1[i - 1]? with
    | none => rfl
    | some p =>
      dsimp only
      by_cases hw : p.whitespace_after = ""
      · rw [if_pos hw]
        exact List.getElem?_set_ne (by omega)
      · rw [if_neg hw]
  · rw [if_neg hi]

/-- C6 counterexample: a subscript-digit run whose base token is unit-tagged
is still converted — the subscript branch has no unit-context suppression. -/
theorem c6_counterexample :
    ((mathStep [tokWU "kg", tokSub "₂"] 1).1.map Tok.text) =
        ["kg", "بنچینە دوو"] ∧
      isUnitCtx (getPrev [tokWU "kg", tokSub "₂"] 1) = true := by
  decide

/-- C6 (amended): a subscript-digit run is always rewritten to the "base N"
phrase, regardless of the preceding token; a superscript-digit run is
rewritten to the "power N" phrase only when the preceding token is not in
unit context (unit tag or unit-word ending), and is left untouched when it
is. -/
theorem c6_subsup_amended (ts : List Tok) (i : Nat) (t : Tok)
    (hget : ts[i]? = some t)
    (hfrac : FRACTION_VALUES.find? (fun p => p.1 = t.text) = none) :
    (isSubTok t = true → pyIsDigitStr (translateSub t.text) = true →
      ((mathStep ts i).1[i]?).map Tok.text =
        some ("بنچینە " ++ int_to_kurdish (digitsToNat (translateSub t.text).data)) ∧
      (mathStep ts i).2 = i + 1) ∧
    (isSubTok t = false → isSupTok t = true →
      isUnitCtx (getPrev ts i) = true → mathStep ts i = (ts, i + 1)) ∧
    (isSubTok t = false → isSupTok t = true →
      isUnitCtx (getPrev ts i) = false →
      pyIsDigitStr (translateSup t.text) = true →
      ((mathStep ts i).1[i]?).map Tok.text =
        some ("توان " ++ int_to_kurdish (digitsToNat (translateSup t.text).data)) ∧
      (mathStep ts i).2 = i + 1) := by
  have hlen : i < ts.length := (List.getElem?_eq_some.mp hget).1
  refine ⟨?_, ?_, ?_⟩
  · intro hsub hdig
    simp only [mathStep, hget, hfrac]
    rw [if_pos hsub]
    constructor
    · unfold stepSubscript
      rw [if_pos hdig]
      rw [getElem?_after_prev_fix]
      rw [List.getElem?_set_self (by simpa using hlen)]
      rfl
    · rfl
  · intro hsub hsup hunit
    simp only [mathStep, hget, hfrac]
    rw [if_neg (by simp [hsub]), if_pos hsup]
    unfold stepSuperscript
    rw [if_pos hunit]
  · intro hsub hsup hunit hdig
    simp only [mathStep, hget, hfrac]
    rw [if_neg (by simp [hsub]), if_pos hsup]
    constructor
    · unfold stepSuperscript
      rw [if_neg (by simp [hunit]), if_pos hdig]
      rw [getElem?_after_prev_fix]
      rw [List.getElem?_set_self (by simpa using hlen)]
      rfl
    · rfl

/-- C6 witness: a bare subscript run converts; a superscript after a
unit-tagged token is suppressed; a superscript after a plain word converts. -/
theorem c6_witness :
    (((mathStep [tokW "x", tokSub "₂"] 1).1[1]?).map Tok.text =
      some ("بنچینە " ++ int_to_kurdish (digitsToNat (translateSub "₂").data))) ∧
    (mathStep [tokWU "kg", tokSup "²"] 1 = ([tokWU "kg", tokSup "²"], 2)) ∧
    (((mathStep [tokW "y", tokSup "²"] 1).1[1]?).map Tok.text =
      some ("توان " ++ int_to_kurdish (digitsToNat (translateSup "²").data))) :=
  ⟨((c6_subsup_amended [tokW "x", tokSub "₂"] 1 (tokSub "₂") (by decide)
      (by decide)).1 (by decide) (by decide)).1,
   (c6_subsup_amended [tokWU "kg", tokSup "²"] 1 (tokSup "²") (by decide)
      (by decide)).2.1 (by decide) (by decide) (by decide),
   ((c6_subsup_amended [tokW "y", tokSup "²"] 1 (tokSup "²") (by decide)
      (by decide)).2.2 (by decide) (by decide) (by decide) (by decide)).1⟩

/-! ## C3 and C5: slash and dash disambiguation -/

theorem mathStep_symbol (ts : List Tok) (i : Nat) (t : Tok)
    (hget : ts[i]? = some t)
    (hfrac : FRACTION_VALUES.find? (fun q => q.1 = t.text) = none)
    (hsub : isSubTok t = false) (hsup : isSupTok t = false)
    (htype : t.type = TokenType.SYMBOL) :
    mathStep ts i = stepOperator ts i t := by
  simp only [mathStep, hget, hfrac]
  rw [if_neg (by simp [hsub]), if_neg (by simp [hsup]),
    if_neg (by simp [htype])]

theorem stepOperator_to_core (ts : List Tok) (i : Nat) (t : Tok)
    (htype : t.type = TokenType.SYMBOL)
    (hmem : t.text ∈ MATH_SYMBOL_KEYS ∨ t.text ∈ MATH_BRACKETS)
    (hplus : t.text ≠ "+")
    (hctx : checkMathContext t (getPrev ts i) (getNext ts i) = true) :
    stepOperator ts i t = mathOpCore ts i t (getPrev ts i) (getNext ts i) := by
  unfold stepOperator
  rw [if_pos ⟨htype, hmem⟩]
  cases hp : getPrev ts i with
  | none =>
    cases hn : getNext ts i with
    | none =>
      dsimp only
      rw [hp, hn] at hctx
      rw [if_pos hctx]
    | some n =>
      dsimp only
      rw [hp, hn] at hctx
      rw [if_pos hctx]
  | some p =>
    cases hn : getNext ts i with
    | none =>
      dsimp only
      rw [hp, hn] at hctx
      rw [if_pos hctx]
    | some n =>
      dsimp only
      rw [if_neg hplus]
      rw [hp, hn] at hctx
      rw [if_pos hctx]

/-- C3 counterexample: a `/` between two NUMBER tokens with the left neighbor
unit-tagged (and the right not) is still merged into a spoken fraction — the
code skips only when both neighbors are unit-tagged, not either. -/
theorem c3_counterexample :
    ("IS_UNIT" ∈ (tokNU "1").tags) ∧
      (mathProcess [tokNU "1", tokS "/", tokN "2"]).map Tok.text = ["نیوە"] ∧
      (mathProcess [tokNU "1", tokS "/", tokN "2"]).map Tok.text ≠
        ["1", "/", "2"] := by
  decide

/-- C3 (amended): a `/` SYMBOL token in math context between neighbors `p`
and `n` is left untouched when both neighbors are unit-tagged; when not both
are unit-tagged and both are NUMBER tokens with integer texts, the three
tokens merge into one spoken fraction carried by the left neighbor (mixed
phrasing when a further preceding numeric token exists), the slash and the
right neighbor are blanked, and the loop skips ahead by two. -/
theorem c3_slash_amended (ts : List Tok) (i : Nat) (t p n : Tok)
    (hget : ts[i]? = some t) (htype : t.type = TokenType.SYMBOL)
    (htext : t.text = "/")
    (hprev : getPrev ts i = some p) (hnext : getNext ts i = some n)
    (hctx : checkMathContext t (getPrev ts i) (getNext ts i) = true) :
    ((p.tags.contains "IS_UNIT" || p.tags.contains "UNIT_PROCESSED") = true →
      (n.tags.contains "IS_UNIT" || n.tags.contains "UNIT_PROCESSED") = true →
      mathStep ts i = (ts, i + 1)) ∧
    (∀ a b : Int,
      ((p.tags.contains "IS_UNIT" || p.tags.contains "UNIT_PROCESSED") &&
        (n.tags.contains "IS_UNIT" || n.tags.contains "UNIT_PROCESSED")) = false →
      p.type = TokenType.NUMBER → n.type = TokenType.NUMBER →
      pyInt? (String.mk (p.text.data.filter (· ≠ ','))) = some a →
      pyInt? (String.mk (n.text.data.filter (· ≠ ','))) = some b →
      ((mathStep ts i).1[i - 1]?).map Tok.text =
        some (formatFraction a b (isNumericToken (getPrev ts (i - 1)))) ∧
      ((mathStep ts i).1[i]?).map Tok.text = some "" ∧
      ((mathStep ts i).1[i + 1]?).map Tok.text = some "" ∧
      (mathStep ts i).2 = i + 2) := by
  have hlen : i < ts.length := (List.getElem?_eq_some.mp hget).1
  have hipos : 0 < i := by
    by_contra hip
    rw [getPrev, if_neg hip] at hprev
    cases hprev
  have hnlen : i + 1 < ts.length := by
    by_contra hnl
    rw [getNext, if_neg hnl] at hnext
    cases hnext
  have hstep : mathStep ts i = stepOperator ts i t := by
    apply mathStep_symbol ts i t hget
    · rw [htext]; decide
    · unfold isSubTok
      rw [htype, htext]
      decide
    · unfold isSupTok
      rw [htype, htext]
      decide
    · exact htype
  have hcore : stepOperator ts i t = mathOpCore ts i t (some p) (some n) := by
    rw [stepOperator_to_core ts i t htype (Or.inl (by rw [htext]; decide))
      (by rw [htext]; decide) hctx, hprev, hnext]
  have hrange : mathRange? ts i t (some p) (some n) = none := by
    unfold mathRange?
    rw [if_neg (by rw [htext]; decide)]
  constructor
  · intro hu1 hu2
    rw [hstep, hcore]
    unfold mathOpCore
    rw [if_neg (by rw [htext]; decide), hrange]
    dsimp only
    unfold mathSlash?
    rw [if_pos (Or.inl htext)]
    dsimp only
    rw [hu1, hu2]
    rfl
  · intro a b hunot hpn hnn hpa hnb
    rw [hstep, hcore]
    unfold mathOpCore
    rw [if_neg (by rw [htext]; decide), hrange]
    dsimp only
    unfold mathSlash?
    rw [if_pos (Or.inl htext)]
    dsimp only
    rw [hunot, if_neg (by decide : ¬(false = true))]
    rw [if_pos ⟨hpn, hnn⟩, hpa, hnb]
    dsimp only
    refine ⟨?_, ?_, ?_, rfl⟩
    · rw [List.getElem?_set_ne (by omega), List.getElem?_set_ne (by omega),
        List.getElem?_set_self (by simpa using by omega : i - 1 < ts.length)]
      rfl
    · rw [List.getElem?_set_ne (by omega),
        List.getElem?_set_self (by simpa using hlen)]
      rfl
    · rw [List.getElem?_set_self (by simpa using hnlen)]
      rfl

/-- C3 witness: unit-tagged neighbors on both sides leave `1/2` untouched;
with only one unit-tagged neighbor the triple merges into `نیوە`. -/
theorem c3_witness :
    (mathStep [tokNU "1", tokS "/", tokNU "2"] 1 =
        ([tokNU "1", tokS "/", tokNU "2"], 2)) ∧
      (((mathStep [tokNU "1", tokS "/", tokN "2"] 1).1[0]?).map Tok.text =
          some (formatFraction 1 2 (isNumericToken
            (getPrev [tokNU "1", tokS "/", tokN "2"] 0))) ∧
        ((mathStep [tokNU "1", tokS "/", tokN "2"] 1).1[1]?).map Tok.text =
          some "" ∧
        ((mathStep [tokNU "1", tokS "/", tokN "2"] 1).1[2]?).map Tok.text =
          some "" ∧
        (mathStep [tokNU "1", tokS "/", tokN "2"] 1).2 = 3) :=
  ⟨(c3_slash_amended [tokNU "1", tokS "/", tokNU "2"] 1 (tokS "/") (tokNU "1")
      (tokNU "2") (by decide) (by decide) (by decide) (by decide) (by decide)
      (by decide)).1 (by decide) (by decide),
   (c3_slash_amended [tokNU "1", tokS "/", tokN "2"] 1 (tokS "/") (tokNU "1")
      (tokN "2") (by decide) (by decide) (by decide) (by decide) (by decide)
      (by decide)).2 1 2 (by decide) (by decide) (by decide) (by decide)
      (by decide)⟩

/-- C5: a bare `-`/`−` SYMBOL token in math context becomes the range word
when both neighbors are numeric and no active math symbol/bracket/term sits
two positions away on either side; otherwise it becomes negation when unary
(start of expression, preceding operator, opening bracket, `=` or comma) and
subtraction otherwise. -/
theorem c5_minus_disambiguation (ts : List Tok) (i : Nat) (t : Tok)
    (hget : ts[i]? = some t) (htype : t.type = TokenType.SYMBOL)
    (htext : t.text = "-" ∨ t.text = "−")
    (hctx : checkMathContext t (getPrev ts i) (getNext ts i) = true) :
    ((mathStep ts i).1[i]?).map Tok.text =
      some
        (if isNumericToken (getPrev ts i) = true ∧
            isNumericToken (getNext ts i) = true ∧
            ¬(isActiveMath
                (if (getPrev ts i).isSome = true then getPrev ts (i - 1)
                 else none) = true ∨
              isActiveMath
                (if (getNext ts i).isSome = true then getNext ts (i + 1)
                 else none) = true)
         then "بۆ"
         else if isUnaryPos (getPrev ts i) = true then "سالب" else "کەم") ∧
    (mathStep ts i).2 = i + 1 := by
  have hlen : i < ts.length := (List.getElem?_eq_some.mp hget).1
  have hplus : t.text ≠ "+" := by
    rcases htext with h | h <;> rw [h] <;> decide
  have hmem : t.text ∈ MATH_SYMBOL_KEYS ∨ t.text ∈ MATH_BRACKETS :=
    Or.inl (by rcases htext with h | h <;> rw [h] <;> decide)
  have hbr : t.text ∉ MATH_BRACKETS := by
    rcases htext with h | h <;> rw [h] <;> decide
  have hslash : ¬(t.text = "/" ∨ t.text = "÷") := by
    rcases htext with h | h <;> rw [h] <;> decide
  have hstep : mathStep ts i = stepOperator ts i t := by
    apply mathStep_symbol ts i t hget
    · rcases htext with h | h <;> rw [h] <;> decide
    · unfold isSubTok
      rw [htype]
      rcases htext with h | h <;> rw [h] <;> decide
    · unfold isSupTok
      rw [htype]
      rcases htext with h | h <;> rw [h] <;> decide
    · exact htype
  rw [hstep, stepOperator_to_core ts i t htype hmem hplus hctx]
  unfold mathOpCore
  rw [if_neg hbr]
  unfold mathRange?
  rw [if_pos htext]
  by_cases hcond : isNumericToken (getPrev ts i) = true ∧
      isNumericToken (getNext ts i) = true ∧
      ¬(isActiveMath
          (if (getPrev ts i).isSome = true then getPrev ts (i - 1)
           else none) = true ∨
        isActiveMath
          (if (getNext ts i).isSome = true then getNext ts (i + 1)
           else none) = true)
  · rw [if_pos hcond, if_pos hcond]
    have hpnum := hcond.1
    cases hp : getPrev ts i with
    | none =>
      rw [hp] at hpnum
      simp [isNumericToken] at hpnum
    | some p =>
      dsimp only
      constructor
      · rw [List.getElem?_set_ne (by
          have hip : 0 < i := by
            by_contra hip
            rw [getPrev, if_neg hip] at hp
            cases hp
          omega),
          List.getElem?_set_self (by simpa using hlen)]
        rfl
      · rfl
  · rw [if_neg hcond, if_neg hcond]
    dsimp only
    unfold mathSlash?
    rw [if_neg hslash]
    dsimp only
    unfold mathDefaultRewrite
    dsimp only
    by_cases hun : isUnaryPos (getPrev ts i) = true
    · rw [if_pos hun, if_pos hun, if_pos htext]
      cases hp : getPrev ts i with
      | none =>
        dsimp only
        constructor
        · rw [List.getElem?_set_self (by simpa using hlen)]
          rfl
        · rfl
      | some p =>
        dsimp only
        constructor
        · rw [List.getElem?_set_ne (by
            have hip : 0 < i := by
              by_contra hip
              rw [getPrev, if_neg hip] at hp
              cases hp
            omega),
            List.getElem?_set_self (by simpa using hlen)]
          rfl
        · rfl
    · rw [if_neg hun, if_neg hun]
      have hw : mathSymbolWord t.text = "کەم" := by
        rcases htext with h | h <;> rw [h] <;> decide
      rw [hw]
      cases hp : getPrev ts i with
      | none =>
        dsimp only
        constructor
        · rw [List.getElem?_set_self (by simpa using hlen)]
          rfl
        · rfl
      | some p =>
        dsimp only
        constructor
        · rw [List.getElem?_set_ne (by
            have hip : 0 < i := by
              by_contra hip
              rw [getPrev, if_neg hip] at hp
              cases hp
            omega),
            List.getElem?_set_self (by simpa using hlen)]
          rfl
        · rfl

/-- C5 witness: isolated `1990 - 2000` reads as a range; `= - 5` reads the
dash as negation; `7 - 3 + 1` reads it as subtraction. -/
theorem c5_witness :
    (((mathStep [tokN "1990", tokS "-", tokN "2000"] 1).1[1]?).map Tok.text =
        some "بۆ") ∧
      (((mathStep [tokS "=", tokS "-", tokN "5"] 1).1[1]?).map Tok.text =
        some "سالب") ∧
      (((mathStep [tokN "7", tokS "-", tokN "3", tokS "+", tokN "1"]
          1).1[1]?).map Tok.text = some "کەم") :=
  ⟨((c5_minus_disambiguation [tokN "1990", tokS "-", tokN "2000"] 1 (tokS "-")
      (by decide) (by decide) (Or.inl (by decide)) (by decide)).1).trans
     (by decide),
   ((c5_minus_disambiguation [tokS "=", tokS "-", tokN "5"] 1 (tokS "-")
      (by decide) (by decide) (Or.inl (by decide)) (by decide)).1).trans
     (by decide),
   ((c5_minus_disambiguation [tokN "7", tokS "-", tokN "3", tokS "+", tokN "1"]
      1 (tokS "-") (by decide) (by decide) (Or.inl (by decide))
      (by decide)).1).trans (by decide)⟩

/-! ## C8: spacing normalizer guarantees -/

/-- How a token can change under the spacing pass: text and conversion flag
fixed, whitespace either kept or filled in from empty. -/
abbrev TwLe (a b : Tok) : Prop :=
  b.text = a.text ∧ b.is_converted = a.is_converted ∧
    (b.whitespace_after = a.whitespace_after ∨
      (a.whitespace_after = "" ∧ b.whitespace_after = " "))

/-- List evolution under the spacing pass: same length, pointwise `TwLe`. -/
abbrev Evolves (ts ts' : List Tok) : Prop :=
  ts'.length = ts.length ∧
    ∀ (j : Nat) (a : Tok), ts[j]? = some a → ∃ b, ts'[j]? = some b ∧ TwLe a b

theorem TwLe_refl (a : Tok) : TwLe a a := ⟨rfl, rfl, Or.inl rfl⟩

theorem TwLe_trans {a b c : Tok} (h1 : TwLe a b) (h2 : TwLe b c) : TwLe a c := by
  obtain ⟨t1, c1, w1⟩ := h1
  obtain ⟨t2, c2, w2⟩ := h2
  refine ⟨t2.trans t1, c2.trans c1, ?_⟩
  rcases w1 with w1 | ⟨e1, f1⟩
  · rcases w2 with w2 | ⟨e2, f2⟩
    · exact Or.inl (w2.trans w1)
    · exact Or.inr ⟨w1 ▸ e2, f2⟩
  · rcases w2 with w2 | ⟨e2, f2⟩
    · exact Or.inr ⟨e1, w2.trans f1⟩
    · exact Or.inr ⟨e1, f2⟩

theorem Evolves_refl (ts : List Tok) : Evolves ts ts :=
  ⟨rfl, fun _ a h => ⟨a, h, TwLe_refl a⟩⟩

theorem Evolves_trans {ts ts' ts'' : List Tok} (h1 : Evolves ts ts')
    (h2 : Evolves ts' ts'') : Evolves ts ts'' := by
  obtain ⟨l1, p1⟩ := h1
  obtain ⟨l2, p2⟩ := h2
  refine ⟨l2.trans l1, fun j a ha => ?_⟩
  obtain ⟨b, hb, hab⟩ := p1 j a ha
  obtain ⟨c, hc, hbc⟩ := p2 j b hb
  exact ⟨c, hc, TwLe_trans hab hbc⟩

theorem Evolves_set {ts : List Tok} {k : Nat} {t t' : Tok}
    (hk : ts[k]? = some t) (h : TwLe t t') : Evolves ts (ts.set k t') := by
  refine ⟨by simp, fun j a ha => ?_⟩
  by_cases hjk : k = j
  · subst hjk
    refine ⟨t', List.getElem?_set_self ?_, ?_⟩
    · exact (List.getElem?_eq_some.mp hk).1
    · rw [hk] at ha
      cases ha
      exact h
  · exact ⟨a, (List.getElem?_set_ne hjk).trans ha, TwLe_refl a⟩

theorem Evolves_spStep (ts : List Tok) (i : Nat) : Evolves ts (spStep ts i) := by
  unfold spStep
  cases hk : ts[i]? with
  | none => exact Evolves_refl ts
  | some t =>
    dsimp only
    by_cases hc : t.is_converted
    · rw [if_pos hc]
      have e1 : Evolves ts
          (if t.whitespace_after = "" then
            ts.set i { t with whitespace_after := " " }
          else ts) := by
        by_cases hw : t.whitespace_after = ""
        · rw [if_pos hw]
          exact Evolves_set hk ⟨rfl, rfl, Or.inr ⟨hw, rfl⟩⟩
        · rw [if_neg hw]
          exact Evolves_refl ts
      set ts1 :=
        (if t.whitespace_after = "" then
          ts.set i { t with whitespace_after := " " }
        else ts) with hts1
      by_cases hi : 0 < i
      · rw [if_pos hi]
        cases hp : ts1[i - 1]? with
        | none => exact e1
        | some p =>
          dsimp only
          by_cases hpw : p.whitespace_after = ""
          · rw [if_pos hpw]
            by_cases hop : p.text ∈ SPACING_OPENERS
            · rw [if_pos hop]
              exact e1
            · rw [if_neg hop]
              exact Evolves_trans e1
                (Evolves_set hp ⟨rfl, rfl, Or.inr ⟨hpw, rfl⟩⟩)
          · rw [if_neg hpw]
            exact e1
      · rw [if_neg hi]
        exact e1
    · rw [if_neg hc]
      exact Evolves_refl ts

/-- The guarantee at one index: a converted token has trailing whitespace and
its predecessor has trailing whitespace unless it is an opening
bracket/quote. -/
abbrev SpGood (ts : List Tok) (i : Nat) : Prop :=
  ∀ t, ts[i]? = some t → t.is_converted = true →
    t.whitespace_after ≠ "" ∧
      ∀ j p, i = j + 1 → ts[j]? = some p →
        p.whitespace_after ≠ "" ∨ p.text ∈ SPACING_OPENERS

theorem SpGood_evolves {ts ts' : List Tok} {i : Nat} (he : Evolves ts ts')
    (hg : SpGood ts i) : SpGood ts' i := by
  obtain ⟨heL, heP⟩ := he
  intro t' ht' hconv'
  have hlt : i < ts.length := by
    have h1 : i < ts'.length := (List.getElem?_eq_some.mp ht').1
    rw [heL] at h1
    exact h1
  obtain ⟨t, ht⟩ : ∃ t, ts[i]? = some t := ⟨_, List.getElem?_eq_getElem hlt⟩
  obtain ⟨b, hb, htb⟩ := heP i t ht
  rw [ht'] at hb
  cases hb
  have hconv : t.is_converted = true := htb.2.1 ▸ hconv'
  obtain ⟨hw, hprev⟩ := hg t ht hconv
  constructor
  · rcases htb.2.2 with h | ⟨h, _⟩
    · rw [h]
      exact hw
    · exact absurd h hw
  · intro j p' hij hp'
    have hltj : j < ts.length := by
      have h1 : j < ts'.length := (List.getElem?_eq_some.mp hp').1
      rw [heL] at h1
      exact h1
    obtain ⟨p, hp⟩ : ∃ p, ts[j]? = some p := ⟨_, List.getElem?_eq_getElem hltj⟩
    obtain ⟨b', hb', hpb⟩ := heP j p hp
    rw [hp'] at hb'
    cases hb'
    rcases hprev j p hij hp with h | h
    · left
      rcases hpb.2.2 with hh | ⟨hh, _⟩
      · rw [hh]
        exact h
      · exact absurd hh h
    · right
      rw [hpb.1]
      exact h

theorem SpGood_spStep (ts : List Tok) (i : Nat) : SpGood (spStep ts i) i := by
  unfold spStep
  cases hk : ts[i]? with
  | none =>
    intro tt htt _
    rw [hk] at htt
    cases htt
  | some t =>
    dsimp only
    by_cases hc : t.is_converted
    · rw [if_pos hc]
      have hlen : i < ts.length := (List.getElem?_eq_some.mp hk).1
      have hts1 :
          ∃ t1, (if t.whitespace_after = "" then
              ts.set i { t with whitespace_after := " " }
            else ts)[i]? = some t1 ∧ t1.whitespace_after ≠ "" := by
        by_cases hw : t.whitespace_after = ""
        · rw [if_pos hw]
          exact ⟨_, List.getElem?_set_self hlen, by simp⟩
        · rw [if_neg hw]
          exact ⟨t, hk, hw⟩
      obtain ⟨t1, ht1, ht1w⟩ := hts1
      by_cases hi : 0 < i
      · rw [if_pos hi]
        cases hp : (if t.whitespace_after = "" then
            ts.set i { t with whitespace_after := " " }
          else ts)[i - 1]? with
        | none =>
          intro tt htt _
          rw [ht1] at htt
          cases htt
          refine ⟨ht1w, fun j p hij hpj => ?_⟩
          have hj : j = i - 1 := by omega
          subst hj
          rw [hp] at hpj
          cases hpj
        | some p =>
          dsimp only
          by_cases hpw : p.whitespace_after = ""
          · rw [if_pos hpw]
            by_cases hop : p.text ∈ SPACING_OPENERS
            · rw [if_pos hop]
              intro tt htt _
              rw [ht1] at htt
              cases htt
              refine ⟨ht1w, fun j q hij hqj => ?_⟩
              have hj : j = i - 1 := by omega
              subst hj
              rw [hp] at hqj
              cases hqj
              exact Or.inr hop
            · rw [if_neg hop]
              intro tt htt _
              rw [List.getElem?_set_ne (by omega), ht1] at htt
              cases htt
              refine ⟨ht1w, fun j q hij hqj => ?_⟩
              have hj : j = i - 1 := by omega
              subst hj
              have hjlen : i - 1 <
                  (if t.whitespace_after = "" then
                    ts.set i { t with whitespace_after := " " }
                  else ts).length := (List.getElem?_eq_some.mp hp).1
              rw [List.getElem?_set_self hjlen] at hqj
              cases hqj
              left
              simp
          · rw [if_neg hpw]
            intro tt htt _
            rw [ht1] at htt
            cases htt
            refine ⟨ht1w, fun j q hij hqj => ?_⟩
            have hj : j = i - 1 := by omega
            subst hj
            rw [hp] at hqj
            cases hqj
            exact Or.inl hpw
      · rw [if_neg hi]
        intro tt htt _
        rw [ht1] at htt
        cases htt
        refine ⟨ht1w, fun j q hij hqj => ?_⟩
        omega
    · rw [if_neg hc]
      intro tt htt hcv
      rw [hk] at htt
      cases htt
      exact absurd hcv (by simpa using hc)

theorem spLoop_good :
    ∀ (fuel : Nat) (ts : List Tok) (i : Nat), ts.length ≤ i + fuel →
      (∀ j, j < i → SpGood ts j) → ∀ j, SpGood (spLoop fuel ts i) j := by
  intro fuel
  induction fuel with
  | zero =>
    intro ts i hlen hpre j
    rw [spLoop]
    by_cases hj : j < i
    · exact hpre j hj
    · intro tt htt _
      have : j < ts.length := (List.getElem?_eq_some.mp htt).1
      omega
  | succ f ih =>
    intro ts i hlen hpre j
    rw [spLoop]
    by_cases hil : i < ts.length
    · rw [if_pos hil]
      have hevo := Evolves_spStep ts i
      obtain ⟨hevoL, -⟩ := id hevo
      apply ih (spStep ts i) (i + 1)
      · rw [hevoL]
        omega
      · intro k hk
        by_cases hki : k < i
        · exact SpGood_evolves hevo (hpre k hki)
        · have hik : k = i := by omega
          rw [hik]
          exact SpGood_spStep ts i
    · rw [if_neg hil]
      by_cases hj : j < i
      · exact hpre j hj
      · intro tt htt _
        have : j < ts.length := (List.getElem?_eq_some.mp htt).1
        omega

/-- C8: after the spacing pass, every token flagged `is_converted` carries
non-empty trailing whitespace, and its predecessor carries non-empty trailing
whitespace unless that predecessor is an opening bracket or quote. -/
theorem c8_spacing_guarantee (ts : List Tok) (i : Nat) (t : Tok)
    (hget : (spacingProcess ts)[i]? = some t) (hconv : t.is_converted = true) :
    t.whitespace_after ≠ "" ∧
      ∀ j p, i = j + 1 → (spacingProcess ts)[j]? = some p →
        p.whitespace_after ≠ "" ∨ p.text ∈ SPACING_OPENERS := by
  have := spLoop_good ts.length ts 0 (by omega)
    (fun j hj => absurd hj (Nat.not_lt_zero j)) i t hget hconv
  exact this

/-- C8 witness: a converted token after an opening bracket keeps the bracket
spaceless, and the converted token itself gains trailing whitespace. -/
theorem c8_witness :
    ({ cvTok with whitespace_after := " " } : Tok).whitespace_after ≠ "" ∧
      ((tokS "(").whitespace_after ≠ "" ∨ (tokS "(").text ∈ SPACING_OPENERS) := by
  have h := c8_spacing_guarantee [tokW "a", cvTok, tokS "(", cvTok] 3
    { cvTok with whitespace_after := " " } (by decide) (by decide)
  exact ⟨h.1, h.2 2 (tokS "(") rfl (by decide)⟩

/-! ## C10: frame effect of the technical normalizer on numeric ranges -/

/-- C10: on the token sequence of `"1990-2000-"` (a tight numeric range
followed by a trailing dash), `TechnicalNormalizer.process` performs the raw
list access `tokens[i + 2]` from the range NUMBER token and raises
`IndexError` (modelled as `none`) instead of passing the tokens through; on
`"1990-2000 x"` the range does pass through unchanged. -/
theorem c10_technical_range_crash :
    (tokenize "1990-2000-".data).map (fun t => (t.text, t.type)) =
      [("1990", TokenType.NUMBER), ("-", TokenType.SYMBOL),
       ("2000", TokenType.NUMBER), ("-", TokenType.SYMBOL)] ∧
      techProcess (tokenize "1990-2000-".data) = none ∧
      techProcess (tokenize "1990-2000 x".data) =
        some (tokenize "1990-2000 x".data) := by
  decide

/-! ## Behavioral checks (concrete evaluations of the embedding) -/

example : natToKurdish 123 = "سەد و بیست و سێ" := by decide

example : natToKurdish 2025 = "دوو هەزار و بیست و پێنج" := by decide

example : int_to_kurdish (-5) = "سالب پێنج" := by decide

example : finalCleanup "a\n \nb".data = "a\n\nb".data := by decide

example : wsCanonical "a\n\nb".data = false := by decide

example : finalCleanup "  x \t y\r\n z  ".data = "x y\nz".data := by decide

example :
    tokenize "Hello 123!".data =
      [{ text := "Hello", original_text := "Hello", type := TokenType.WORD,
         whitespace_after := " " },
       { text := "123", original_text := "123", type := TokenType.NUMBER },
       { text := "!", original_text := "!", type := TokenType.SYMBOL }] := by
  decide

example : detokenize (tokenize "سڵاو Hello : 12:30 و 2025/12/03 !".data) =
    "سڵاو Hello : 12:30 و 2025/12/03 !".data := by decide

example : (tokenize "5e-10".data).map Tok.text = ["5e-10"] := by decide

example : convert_date "2025/12/03" =
    "سێی کانونی یەکەمی ساڵی دوو هەزار و بیست و پێنج" := by decide

example : convert_date "2025/13/01" = "2025/13/01" := by decide

example : convert_time "12:30" "" = "دوازدە و نیو" := by decide

example : convert_time "12:30" "PM" = "دوازدە و نیوی نیوەڕۆ" := by decide

example : convert_time "0:30" "" = "دوازدە و نیوی نیوەشەو" := by decide

example : convert_time ":" "" = ":" := by decide

example :
    (mathProcess (tokenize "1/2".data)).map Tok.text = ["نیوە"] := by decide

example :
    (mathProcess (tokenize "1/4".data)).map Tok.text = ["چارەک"] := by decide

example :
    (mathProcess (tokenize "2 1/2".data)).map Tok.text = ["2", "و نیو"] := by
  decide

example :
    (mathProcess (tokenize "5 + 3".data)).map Tok.text = ["5", "کۆ", "3"] := by
  decide

example :
    (mathProcess (tokenize "1990 - 2000".data)).map Tok.text =
      ["1990", "بۆ", "2000"] := by decide

example :
    (techProcess (tokenize "1990-2000 x".data)).map (List.map Tok.text) =
      some ["1990", "-", "2000", "x"] := by decide

example : techProcess (tokenize "1990-2000-".data) = none := by decide

end CkbTextify
